import Mathlib

/-!
Verification of the pload module (grid / output-log / config text codecs).

Modelling conventions, used consistently below:

* Python floats are modelled as exact rationals (`ℚ`).  The two places the
  code rounds are modelled explicitly: `np.around(x, 12)` as `roundDec 12`
  and the text rendering `"{:.12e}".format(x)` as `fmt12e` (round the
  mantissa, with 10^(floor log10 |x|) as the exponent, to 12 decimal
  places, i.e. 13 significant digits); `"{:.5f}"` is `roundDec 5`.
  Rounding halves to even mirrors the IEEE/numpy behaviour.
* A line of a grid file is either a comment line (leading text starting
  with the hash marker) or a data line, modelled by the exact rational
  values of its whitespace-separated numeric fields (`FLine`).  The header
  block written by write_grid_header consists solely of comment lines,
  which read_grid drops (itertools.dropwhile); its content is modelled
  separately by `write_grid_header` for the header claims.
* Python dict / collections.OrderedDict is modelled as an association
  list.  Assignment `d[k] = v` is `odSet`: it updates the value in place
  (keeping the key's original position) when the key exists, else appends.
* Config files are handled at the character-list level; a file is a list
  of lines, each a `List Char` (without the trailing newline).
* Catalog (output-log) lines are strings; `pySplit` models str.split()
  (split on whitespace runs), `pyIntTok?` / `pyFloatTok?` model int() /
  float() on such whitespace-free tokens (finite decimal notation).
-/

/-- Association-list model of an insertion-ordered mapping: Python dict
assignment d[k] = v (replace in place if the key exists, else append). -/
def odSet {κ α : Type} [DecidableEq κ] : List (κ × α) → κ → α → List (κ × α)
  | [], k, v => [(k, v)]
  | (k1, v1) :: rest, k, v =>
      if k1 = k then (k, v) :: rest else (k1, v1) :: odSet rest k v

/-- Lookup in the association-list mapping (first matching key). -/
def odLookup {κ α : Type} [DecidableEq κ] : List (κ × α) → κ → Option α
  | [], _ => none
  | (k1, v1) :: rest, k => if k1 = k then some v1 else odLookup rest k

/-- Round a rational to the nearest integer, halves to even (the rounding
used by numpy.around and by float formatting). -/
def rndHEQ (x : ℚ) : ℤ :=
  if Int.fract x < 1 / 2 then ⌊x⌋
  else if 1 / 2 < Int.fract x then ⌊x⌋ + 1
  else if 2 ∣ ⌊x⌋ then ⌊x⌋ else ⌊x⌋ + 1

/-- Round to p decimal places: the value of numpy.around(x, p), and the
value denoted by fixed-point formatting with p digits after the point. -/
def roundDec (p : ℕ) (x : ℚ) : ℚ := (rndHEQ (x * 10 ^ p) : ℚ) / 10 ^ p

/-- The exact value denoted by scientific notation with 12 digits after
the point (the "{:.12e}" rendering): the mantissa x / 10^e with
e = floor(log10 |x|) is rounded to 12 decimal places. -/
def fmt12e (x : ℚ) : ℚ :=
  if x = 0 then 0
  else (rndHEQ (x / (10 : ℚ) ^ Int.log 10 |x| * 10 ^ 12) : ℚ) / 10 ^ 12 *
    (10 : ℚ) ^ Int.log 10 |x|

/-- A grid-file line: a comment line, or a data line given by the values
of its whitespace-separated numeric fields. -/
inductive FLine where
  | comment : FLine
  | data : List ℚ → FLine
deriving DecidableEq

/-- Whether the line is a comment line (starts with the hash marker). -/
def FLine.isComment : FLine → Bool
  | .comment => true
  | .data _ => false

/-- process_grid_line: a line with exactly 5 fields yields field index 2
(the pluto-3 layout); any other line yields the midpoint of field
indices 1 and 2 (the pluto-4 layout).  Missing fields (an IndexError in
the source) and comment lines (a float() ValueError) give none. -/
def process_grid_line : FLine → Option ℚ
  | .comment => none
  | .data items =>
      if items.length = 5 then items[2]?
      else do
        let a ← items[1]?
        let b ← items[2]?
        pure ((a + b) / 2)

/-- int(next(lines)): a data line consisting of a single integer-valued
field read as a point count; anything else fails. -/
def asCount : FLine → Option ℕ
  | .comment => none
  | .data items =>
      match items with
      | [q] => if q.den = 1 ∧ 0 ≤ q.num then some q.num.toNat else none
      | _ => none

/-- One iteration of the read_grid loop: read the point count, then that
many data lines through process_grid_line; returns the axis values and
the remaining lines.  Exhaustion of the file gives none. -/
def read_axis (ls : List FLine) : Option (List ℚ × List FLine) :=
  ls.head?.bind fun l =>
    (asCount l).bind fun n =>
      let rest := ls.tail
      if n ≤ rest.length then
        ((rest.take n).mapM process_grid_line).bind fun vals =>
          some (vals, rest.drop n)
      else none

/-- The in-memory grid: the three axis arrays of cell centers. -/
structure Grid where
  x1 : List ℚ
  x2 : List ℚ
  x3 : List ℚ
deriving DecidableEq

/-- read_grid: drop the leading comment lines, then read the three axes
in the fixed order x1, x2, x3. -/
def read_grid (ls : List FLine) : Option Grid :=
  (read_axis (ls.dropWhile FLine.isComment)).bind fun p1 =>
    (read_axis p1.2).bind fun p2 =>
      (read_axis p2.2).bind fun p3 =>
        some ⟨p1.1, p2.1, p3.1⟩

/-- The per-axis body of write_grid: the point-count line followed by one
data line per point.  For more than one point the edges are the centers
offset by half the first spacing, rounded to 12 decimals (np.around);
for a single point the placeholder edges are left = 0, right = 1.
Every written numeric field carries the 12-digit scientific rendering,
hence the fmt12e on each emitted value. -/
def write_grid_axis (pluto4 : Bool) (xs : List ℚ) : List FLine :=
  let npoints := xs.length
  let lr : List ℚ × List ℚ :=
    if 1 < npoints then
      let dx := xs.getD 1 0 - xs.getD 0 0
      (xs.map (fun c => roundDec 12 (c - dx / 2)),
       xs.map (fun c => roundDec 12 (c + dx / 2)))
    else ([0], [1])
  FLine.data [(npoints : ℚ)] ::
    (List.range npoints).map (fun i =>
      if pluto4 then
        FLine.data [((i + 1 : ℕ) : ℚ), fmt12e (lr.1.getD i 0), fmt12e (lr.2.getD i 0)]
      else
        FLine.data [((i + 1 : ℕ) : ℚ), fmt12e (lr.1.getD i 0),
          fmt12e ((lr.2.getD i 0 + lr.1.getD i 0) / 2), fmt12e (lr.2.getD i 0),
          fmt12e (lr.2.getD i 0 - lr.1.getD i 0)])

/-- The three axes in the fixed iteration order x1, x2, x3. -/
def axes (g : Grid) : List (List ℚ) := [g.x1, g.x2, g.x3]

/-- keys[i].upper() for keys = [x1, x2, x3]. -/
def axisName (i : ℕ) : List Char := ["X1".data, "X2".data, "X3".data].getD i []

/-- DIMENSIONS value: the number of axes with more than one point. -/
def gridNdim (g : Grid) : ℕ := ((axes g).filter (fun xs => 1 < xs.length)).length

/-- One per-axis descriptor line of the v4 header: axis identifier, first
and last center values as denoted by the "{:.5f}" rendering, and the
point count. -/
structure AxisDescriptor where
  name : List Char
  xmin : ℚ
  xmax : ℚ
  nx : ℕ
deriving DecidableEq

/-- Content of the v4 header block: the DIMENSIONS count, the upper-cased
geometry label, and the per-axis descriptor lines. -/
structure GridHeader where
  ndim : ℕ
  geometry : List Char
  descriptors : List AxisDescriptor
deriving DecidableEq

/-- write_grid_header: ndim is the number of axes with more than one
point, and the descriptor lines are produced for i in range(ndim) over
the fixed key order, reading grid[keys[i]][0] and grid[keys[i]][-1]
(an empty referenced axis is an IndexError, hence none). -/
def write_grid_header (g : Grid) (geometry : List Char) : Option GridHeader :=
  ((List.range (gridNdim g)).mapM (fun i =>
    let xs := (axes g).getD i []
    xs.head?.bind fun x0 =>
      xs.getLast?.bind fun xl =>
        some (⟨axisName i, roundDec 5 x0, roundDec 5 xl, xs.length⟩ : AxisDescriptor))).bind
    fun descs => some ⟨gridNdim g, geometry.map Char.toUpper, descs⟩

/-- Number of lines of the v4 header block: six fixed comment lines, one
descriptor line per dimension, and the closing starred line. -/
def headerLineCount (h : GridHeader) : ℕ := 7 + h.descriptors.length

/-- write_grid: in v4 format first the header block (all comment lines),
else nothing (the file is truncated); then the three per-axis blocks. -/
def write_grid (pluto4 : Bool) (g : Grid) (geometry : List Char) : Option (List FLine) :=
  let dataLines := write_grid_axis pluto4 g.x1 ++ write_grid_axis pluto4 g.x2 ++
    write_grid_axis pluto4 g.x3
  if pluto4 then
    (write_grid_header g geometry).map
      (fun h => List.replicate (headerLineCount h) FLine.comment ++ dataLines)
  else some dataLines

/-- Physical constants and code units of the module (exact rationals).
UNIT_MF is the only constant involving a square root; no claim uses it
and it is left out of the embedding. -/
def CONST_amu : ℚ := 1.66053886e-24

/-- Proton mass in cgs. -/
def CONST_mp : ℚ := 1.67262171e-24

/-- Boltzmann constant in cgs. -/
def CONST_kB : ℚ := 1.3806505e-16

/-- Parsec in cm. -/
def CONST_pc : ℚ := 3.0856775807e18

/-- Solar mass in g. -/
def CONST_Msun : ℚ := 2.0e33

/-- Code density unit. -/
def UNIT_DENSITY : ℚ := CONST_mp

/-- Code length unit. -/
def UNIT_LENGTH : ℚ := CONST_pc

/-- Code velocity unit. -/
def UNIT_VELOCITY : ℚ := 1.0e5

/-- Code time unit. -/
def UNIT_TIME : ℚ := UNIT_LENGTH / UNIT_VELOCITY

/-- Code pressure unit. -/
def UNIT_PRESSURE : ℚ := UNIT_DENSITY * UNIT_VELOCITY ^ 2

/-- Code energy unit. -/
def UNIT_ENERGY : ℚ := UNIT_PRESSURE * UNIT_LENGTH ^ 3

/-- Code mass unit. -/
def UNIT_MASS : ℚ := UNIT_ENERGY / UNIT_VELOCITY ^ 2

/-- Kelvin conversion factor. -/
def KELVIN : ℚ := UNIT_VELOCITY ^ 2 * CONST_amu / CONST_kB

/-- Deprecated adiabatic index. -/
def gamma : ℚ := 5.0 / 3.0

/-- Deprecated mean molecular weight. -/
def mu : ℚ := 13.0 / 21.0

/-- Conversion factor from time in code units to time in years. -/
def time2yrs : ℚ := UNIT_TIME / (365 * 24 * 3600)

/-- str.split() with no separator: split the line on whitespace runs into
the list of its (nonempty) tokens. -/
def pySplit (s : String) : List (List Char) :=
  (s.data.splitOnP Char.isWhitespace).filter (fun t => t ≠ [])

/-- Value of a list of decimal digit characters. -/
def digitsVal (l : List Char) : ℕ := l.foldl (fun a c => 10 * a + (c.toNat - 48)) 0

/-- A nonempty all-digit run, or failure. -/
def parseDigits? (l : List Char) : Option ℕ :=
  if l ≠ [] ∧ l.all Char.isDigit then some (digitsVal l) else none

/-- int(token) on a whitespace-free token: optional sign then decimal
digits. -/
def pyIntTok? (t : List Char) : Option ℤ :=
  match t with
  | '-' :: r => (parseDigits? r).map (fun n => -(n : ℤ))
  | '+' :: r => (parseDigits? r).map (fun n => (n : ℤ))
  | r => (parseDigits? r).map (fun n => (n : ℤ))

/-- float(token) on a whitespace-free token: finite decimal notation,
optional sign, optional fractional part, optional exponent part. -/
def pyFloatTok? (t : List Char) : Option ℚ :=
  let core : List Char → ℚ → Option ℚ := fun u sgn =>
    let mant := u.takeWhile (fun c => !(c == 'e' || c == 'E'))
    let hasExp := u.any (fun c => c == 'e' || c == 'E')
    let rest := (u.dropWhile (fun c => !(c == 'e' || c == 'E'))).tail
    let ip := mant.takeWhile (fun c => !(c == '.'))
    let fp := (mant.dropWhile (fun c => !(c == '.'))).tail
    if ip.all Char.isDigit && fp.all Char.isDigit && (!ip.isEmpty || !fp.isEmpty) then
      let base : ℚ := sgn * ((digitsVal ip : ℚ) + (digitsVal fp : ℚ) / 10 ^ fp.length)
      if hasExp then
        match rest with
        | '-' :: rd => (parseDigits? rd).map (fun e => base / 10 ^ e)
        | '+' :: rd => (parseDigits? rd).map (fun e => base * 10 ^ e)
        | rd => (parseDigits? rd).map (fun e => base * 10 ^ e)
      else some base
    else none
  match t with
  | '-' :: r => core r (-1)
  | '+' :: r => core r 1
  | r => core r 1

/-- A record of the output catalog: time in years, the raw time, the
storage-format label and the variable names (the source dict keys time,
underscore-time, underscore-output, vars). -/
structure OutRecord where
  time : ℚ
  rawTime : ℚ
  outputFormat : List Char
  vars : List (List Char)
deriving DecidableEq

/-- One line of read_output_log: integer index from field 0, float time
from field 1, format label field 4, variables fields 6 onward; the years
value applies the time2yrs factor.  Any missing field or failed numeric
parse aborts the read. -/
def read_log_line (l : String) : Option (ℤ × OutRecord) :=
  let items := pySplit l
  items[0]?.bind fun s0 =>
    (pyIntTok? s0).bind fun nfile =>
      items[1]?.bind fun s1 =>
        (pyFloatTok? s1).bind fun time =>
          items[4]?.bind fun ofmt =>
            some (nfile, ⟨time * time2yrs, time, ofmt, items.drop 6⟩)

/-- read_output_log: fold the per-line records into the index-keyed
mapping; a later line with the same index overwrites the earlier one. -/
def read_output_log (lines : List String) : Option (List (ℤ × OutRecord)) :=
  lines.foldlM (fun d l => (read_log_line l).map (fun r => odSet d r.1 r.2)) []

/-- str.strip(): remove leading and trailing whitespace of a line. -/
def pyStrip (l : List Char) : List Char :=
  ((l.dropWhile Char.isWhitespace).reverse.dropWhile Char.isWhitespace).reverse

/-- line.split(' ', 1) unpacked into exactly two parts: the text before
the first space character and everything after it; a line without a
space fails (the ValueError of unpacking a single part). -/
def splitFirstSpace (l : List Char) : Option (List Char × List Char) :=
  if ' ' ∈ l then
    some (l.takeWhile (fun c => c != ' '), (l.dropWhile (fun c => c != ' ')).tail)
  else none

/-- A config document: ordered sections, each an ordered key-value map. -/
abbrev ConfigDoc := List (List Char × List (List Char × List Char))

/-- Registered equality decision for the parser state, so that concrete
runs of the reader can be evaluated. -/
instance decEqConfigState : DecidableEq (ConfigDoc × Option (List Char)) :=
  instDecidableEqProd

/-- line.lstrip(open bracket).rstrip(close bracket): the section name of
a header line. -/
def secExtract (line : List Char) : List Char :=
  ((line.dropWhile (fun c => c == '[')).reverse.dropWhile (fun c => c == ']')).reverse

/-- One line of read_config on state (document, active section name):
a trimmed line starting with the open bracket and ending with the close
bracket declares a section (stripping all leading open and trailing
close brackets); a blank line is skipped; anything else is a key-value
line split at the first space, stored into the active section (none
active models the NameError of the source). -/
def read_config_step (st : ConfigDoc × Option (List Char)) (raw : List Char) :
    Option (ConfigDoc × Option (List Char)) :=
  let line := pyStrip raw
  if line.head? = some '[' ∧ line.getLast? = some ']' then
    let sec := secExtract line
    some (odSet st.1 sec [], some sec)
  else if line = [] then some st
  else
    st.2.bind fun sec =>
      (splitFirstSpace line).bind fun kv =>
        (odLookup st.1 sec).bind fun cur =>
          some (odSet st.1 sec (odSet cur kv.1 (pyStrip kv.2)), st.2)

/-- read_config including the final parser state (the active section). -/
def read_config_aux (lines : List (List Char)) : Option (ConfigDoc × Option (List Char)) :=
  lines.foldlM read_config_step ([], none)

/-- read_config: the document resulting from the line fold. -/
def read_config (lines : List (List Char)) : Option ConfigDoc :=
  (read_config_aux lines).map Prod.fst

/-- write_config: per section, the bracketed header line, a blank line,
one line per key-value pair with the key left-justified to a minimum
width of 25 characters, then a trailing blank line. -/
def write_config (d : ConfigDoc) : List (List Char) :=
  (d.map (fun s =>
    ('[' :: s.1 ++ [']']) :: ([] : List Char) ::
      (s.2.map (fun kv => kv.1 ++ List.replicate (25 - kv.1.length) ' ' ++ kv.2) ++
        [([] : List Char)]))).flatten

/-- Uniform spacing of an axis, as assumed by the edge reconstruction:
every successive difference equals the first one. -/
def UniformSpacing (xs : List ℚ) : Prop :=
  ∀ i ∈ List.range (xs.length - 1),
    xs.getD (i + 1) 0 - xs.getD i 0 = xs.getD 1 0 - xs.getD 0 0

/-- Recovery of an axis up to the 12-decimal-digit rounding tolerance of
the two roundings on the write path (np.around to 12 decimals and the
12-digit scientific rendering): same length, and each recovered center
within (1 + |center| + |spacing|) / 10^12 of the original. -/
def CloseAxis (xs ys : List ℚ) : Prop :=
  ys.length = xs.length ∧
  ∀ i ∈ List.range xs.length,
    |ys.getD i 0 - xs.getD i 0| ≤
      (1 + |xs.getD i 0| + |xs.getD 1 0 - xs.getD 0 0|) / 10 ^ 12

/-- The center value read back for one written point: the composition of
process_grid_line with the fields emitted by write_grid_axis, in either
format (used to state the round-trip result). -/
def recoveredAxis (b : Bool) (xs : List ℚ) : List ℚ :=
  (List.range xs.length).map (fun i =>
    if b then
      (fmt12e (roundDec 12 (xs.getD i 0 - (xs.getD 1 0 - xs.getD 0 0) / 2)) +
        fmt12e (roundDec 12 (xs.getD i 0 + (xs.getD 1 0 - xs.getD 0 0) / 2))) / 2
    else
      fmt12e ((roundDec 12 (xs.getD i 0 + (xs.getD 1 0 - xs.getD 0 0) / 2) +
        roundDec 12 (xs.getD i 0 - (xs.getD 1 0 - xs.getD 0 0) / 2)) / 2))

/-- Shape of a key as produced by read_config: nonempty, no space
character, and a non-whitespace first character. -/
abbrev GoodKey (k : List Char) : Prop :=
  k ≠ [] ∧ ' ' ∉ k ∧ (k.headD ' ').isWhitespace = false

/-- Shape of a value as produced by read_config: nonempty with
non-whitespace first and last characters (it is stripped). -/
abbrev GoodVal (v : List Char) : Prop :=
  v ≠ [] ∧ (v.headD ' ').isWhitespace = false ∧ (v.getLastD ' ').isWhitespace = false

/-- Shape of a key-value pair as produced by read_config; the bracket
condition records that the source line was not a section header. -/
abbrev GoodPair (k v : List Char) : Prop :=
  GoodKey k ∧ GoodVal v ∧ ¬(k.headD ' ' = '[' ∧ v.getLastD ' ' = ']')

/-- Shape of a section name as produced by read_config: no leading open
bracket and no trailing close bracket. -/
abbrev GoodSec (s : List Char) : Prop :=
  s.headD 'x' ≠ '[' ∧ s.getLastD 'x' ≠ ']'

/-- Invariant of every document produced by read_config: distinct section
names of good shape, and per section distinct keys with good pairs. -/
def WFDoc (d : ConfigDoc) : Prop :=
  (d.map Prod.fst).Nodup ∧
  ∀ e ∈ d, GoodSec e.1 ∧ (e.2.map Prod.fst).Nodup ∧ ∀ kv ∈ e.2, GoodPair kv.1 kv.2

/-! ## Rounding lemmas -/

theorem rndHEQ_close (x : ℚ) : |(rndHEQ x : ℚ) - x| ≤ 1 / 2 := by
  have h0 : (0 : ℚ) ≤ Int.fract x := Int.fract_nonneg x
  have h1 : Int.fract x < 1 := Int.fract_lt_one x
  have hf : (⌊x⌋ : ℚ) = x - Int.fract x := by
    unfold Int.fract
    ring
  unfold rndHEQ
  split_ifs with ha hb hc
  · rw [hf, abs_le]
    constructor <;> linarith
  · rw [abs_le]
    push_cast
    rw [hf]
    constructor <;> linarith
  · have : Int.fract x = 1 / 2 := le_antisymm (not_lt.mp hb) (not_lt.mp ha)
    rw [hf, abs_le]
    constructor <;> linarith
  · have : Int.fract x = 1 / 2 := le_antisymm (not_lt.mp hb) (not_lt.mp ha)
    rw [abs_le]
    push_cast
    rw [hf]
    constructor <;> linarith

theorem rndHEQ_intCast (n : ℤ) : rndHEQ (n : ℚ) = n := by
  unfold rndHEQ
  rw [Int.fract_intCast, Int.floor_intCast]
  norm_num

theorem roundDec_close (p : ℕ) (x : ℚ) : |roundDec p x - x| ≤ 1 / (2 * 10 ^ p) := by
  have hp : (0 : ℚ) < 10 ^ p := by positivity
  have key : roundDec p x - x = ((rndHEQ (x * 10 ^ p) : ℚ) - x * 10 ^ p) / 10 ^ p := by
    unfold roundDec
    field_simp
    ring
  rw [key, abs_div, abs_of_pos hp, div_le_iff₀ hp]
  have h := rndHEQ_close (x * 10 ^ p)
  calc |(rndHEQ (x * 10 ^ p) : ℚ) - x * 10 ^ p| ≤ 1 / 2 := h
    _ = 1 / (2 * 10 ^ p) * 10 ^ p := by
      field_simp

theorem fmt12e_zero : fmt12e 0 = 0 := by
  simp [fmt12e]

theorem fmt12e_close (x : ℚ) : |fmt12e x - x| ≤ |x| / (2 * 10 ^ 12) := by
  unfold fmt12e
  split_ifs with h0
  · subst h0
    simp
  · set e := Int.log 10 |x| with he
    have hxpos : 0 < |x| := abs_pos.mpr h0
    have hple : (10 : ℚ) ^ e ≤ |x| := Int.zpow_log_le_self (by norm_num) hxpos
    have hppos : (0 : ℚ) < (10 : ℚ) ^ e := zpow_pos (by norm_num) e
    have hpne : ((10 : ℚ) ^ e) ≠ 0 := ne_of_gt hppos
    have key : (rndHEQ (x / (10 : ℚ) ^ e * 10 ^ 12) : ℚ) / 10 ^ 12 * (10 : ℚ) ^ e - x
        = ((rndHEQ (x / (10 : ℚ) ^ e * 10 ^ 12) : ℚ) - x / (10 : ℚ) ^ e * 10 ^ 12)
          / 10 ^ 12 * (10 : ℚ) ^ e := by
      field_simp
      ring
    rw [key, abs_mul, abs_div, abs_of_pos hppos]
    have h1 := rndHEQ_close (x / (10 : ℚ) ^ e * 10 ^ 12)
    have h2 : |(rndHEQ (x / (10 : ℚ) ^ e * 10 ^ 12) : ℚ) - x / (10 : ℚ) ^ e * 10 ^ 12|
        / |(10 : ℚ) ^ 12| ≤ (1 / 2) / 10 ^ 12 := by
      rw [abs_of_pos (by norm_num : (0 : ℚ) < 10 ^ 12)]
      exact div_le_div_of_nonneg_right h1 (by norm_num) |>.trans_eq rfl
    calc |(rndHEQ (x / (10 : ℚ) ^ e * 10 ^ 12) : ℚ) - x / (10 : ℚ) ^ e * 10 ^ 12|
          / |(10 : ℚ) ^ 12| * (10 : ℚ) ^ e
        ≤ (1 / 2) / 10 ^ 12 * |x| := by
          apply mul_le_mul h2 hple (le_of_lt hppos) (by norm_num)
      _ = |x| / (2 * 10 ^ 12) := by ring

theorem log10_eq_of_bounds {r : ℚ} {e : ℤ} (hr : 0 < r) (h1 : (10 : ℚ) ^ e ≤ r)
    (h2 : r < (10 : ℚ) ^ (e + 1)) : Int.log 10 r = e := by
  have ha := (Int.zpow_le_iff_le_log (b := 10) (by norm_num) hr).mp (by exact_mod_cast h1)
  have hb := (Int.lt_zpow_iff_log_lt (b := 10) (by norm_num) hr).mp (by exact_mod_cast h2)
  omega

theorem fmt12e_eval {x m : ℚ} {e : ℤ} (h0 : x ≠ 0) (he : Int.log 10 |x| = e)
    (hm : (rndHEQ (x / (10 : ℚ) ^ e * 10 ^ 12) : ℚ) / 10 ^ 12 * (10 : ℚ) ^ e = m) :
    fmt12e x = m := by
  unfold fmt12e
  rw [if_neg h0, he, hm]

theorem fmt12e_exact {x : ℚ} {e : ℤ} {n : ℤ} (h0 : x ≠ 0) (he : Int.log 10 |x| = e)
    (hn : x / (10 : ℚ) ^ e * 10 ^ 12 = (n : ℚ)) : fmt12e x = x := by
  apply fmt12e_eval h0 he
  rw [hn, rndHEQ_intCast, ← hn]
  have hpne : ((10 : ℚ) ^ e) ≠ 0 := ne_of_gt (zpow_pos (by norm_num) e)
  field_simp
  ring

theorem fmt12e_one : fmt12e 1 = 1 := by
  apply fmt12e_exact (n := 10 ^ 12) (e := 0) (by norm_num)
  · rw [abs_one, Int.log_one_right]
  · norm_num

theorem fmt12e_half : fmt12e (1 / 2) = 1 / 2 := by
  apply fmt12e_exact (n := 5 * 10 ^ 12) (e := -1) (by norm_num)
  · rw [abs_of_pos (by norm_num : (0 : ℚ) < 1 / 2)]
    apply log10_eq_of_bounds (by norm_num)
    · rw [zpow_neg, zpow_one]
      norm_num
    · norm_num
  · rw [zpow_neg, zpow_one]
    push_cast
    norm_num

theorem fmt12e_neg_half : fmt12e (-(1 / 2)) = -(1 / 2) := by
  apply fmt12e_exact (n := -(5 * 10 ^ 12)) (e := -1) (by norm_num)
  · rw [abs_of_neg (by norm_num : (-(1 / 2) : ℚ) < 0)]
    apply log10_eq_of_bounds (by norm_num)
    · rw [zpow_neg, zpow_one]
      norm_num
    · norm_num
  · rw [zpow_neg, zpow_one]
    push_cast
    norm_num

theorem fmt12e_three_half : fmt12e (3 / 2) = 3 / 2 := by
  apply fmt12e_exact (n := 15 * 10 ^ 11) (e := 0) (by norm_num)
  · rw [abs_of_pos (by norm_num : (0 : ℚ) < 3 / 2)]
    apply log10_eq_of_bounds (by norm_num)
    · norm_num
    · norm_num
  · push_cast
    norm_num

/-! ## List helpers -/

theorem list_getElem?_of_lt {α : Type} (l : List α) (n : ℕ) (d : α) (h : n < l.length) :
    l[n]? = some (l.getD n d) := by
  rw [List.getD_eq_getElem?_getD, List.getElem?_eq_getElem h]
  rfl

theorem mapM_of_forall_some {α β : Type} (l : List α) (f : α → Option β) (g : α → β)
    (h : ∀ a ∈ l, f a = some (g a)) : l.mapM f = some (l.map g) := by
  induction l with
  | nil => rfl
  | cons a t ih =>
    rw [List.mapM_cons, h a (by simp), ih (fun x hx => h x (by simp [hx]))]
    rfl

/-! ## Degenerate axis output -/

theorem read_axis_single (l : FLine) (v : ℚ) (h : process_grid_line l = some v) :
    read_axis [FLine.data [1], l] = some ([v], []) := by
  have h1 : asCount (FLine.data [1]) = some 1 := rfl
  simp [read_axis, h1, h, List.mapM.loop]

theorem write_axis_single_p4 (c : ℚ) :
    write_grid_axis true [c] = [FLine.data [1], FLine.data [1, 0, 1]] := by
  simp [write_grid_axis, List.range_succ, fmt12e_zero, fmt12e_one]

theorem write_axis_single_leg (c : ℚ) :
    write_grid_axis false [c] = [FLine.data [1], FLine.data [1, 0, 1 / 2, 1, 1]] := by
  simp [write_grid_axis, List.range_succ, fmt12e_zero, fmt12e_one, fmt12e_half]
  norm_num [fmt12e_half]

/-! ## Claim theorems: grid line semantics -/

/-- C1: line-to-scalar conversion returns the value of the third field
(1-indexed) on a line with exactly 5 whitespace-separated fields, and
the midpoint of the second and third fields on a line with 3 fields. -/
theorem c1_process_grid_line_formats :
    (∀ a b c d e : ℚ, process_grid_line (FLine.data [a, b, c, d, e]) = some c) ∧
    (∀ a b c : ℚ, process_grid_line (FLine.data [a, b, c]) = some ((b + c) / 2)) := by
  constructor
  · intro a b c d e
    rfl
  · intro a b c
    rfl

/-- C9 counterexample: a 4-field data line (field count neither 3 nor 5)
is not rejected; it is silently coerced to the midpoint of fields 2 and
3, here (1 + 2) / 2. -/
theorem c9_counterexample_four_fields :
    process_grid_line (FLine.data [0, 1, 2, 9]) = some (3 / 2) := by
  norm_num [process_grid_line]

/-- C9 amended: a data line whose field count is neither 3 nor 5 is not
treated as an error when it has at least 3 fields: it is silently
coerced to the midpoint of fields 2 and 3; only a line with fewer than
3 fields fails. -/
theorem c9_nonstandard_field_counts (items : List ℚ) (hne : items.length ≠ 5) :
    (3 ≤ items.length →
      process_grid_line (FLine.data items) =
        some ((items.getD 1 0 + items.getD 2 0) / 2)) ∧
    (items.length < 3 → process_grid_line (FLine.data items) = none) := by
  constructor
  · intro h3
    simp only [process_grid_line]
    rw [if_neg hne, list_getElem?_of_lt items 1 0 (by omega),
      list_getElem?_of_lt items 2 0 (by omega)]
    rfl
  · intro h3
    rcases items with _ | ⟨a, _ | ⟨b, _ | ⟨c, t⟩⟩⟩
    · rfl
    · rfl
    · rfl
    · exfalso
      simp only [List.length_cons] at h3
      omega

/-- C9 witness: the amended statement at the concrete 6-field line
(5, 7, 9, 11, 13, 15), which is coerced to (7 + 9) / 2 = 8. -/
theorem c9_witness :
    (([5, 7, 9, 11, 13, 15] : List ℚ).length ≠ 5) ∧
    process_grid_line (FLine.data [5, 7, 9, 11, 13, 15]) = some 8 := by
  refine ⟨by decide, ?_⟩
  have h := (c9_nonstandard_field_counts [5, 7, 9, 11, 13, 15] (by decide)).1 (by decide)
  norm_num [List.getD] at h
  exact h

/-- C3: an axis with exactly one point is written with the placeholder
edges left 0 and right 1 in both formats, independently of the center
value (the output equals the output for center 0), and reading the
written block back yields the center one half, so the original center
is not recoverable. -/
theorem c3_degenerate_axis_placeholder (b : Bool) (c : ℚ) :
    write_grid_axis b [c] = write_grid_axis b [0] ∧
    write_grid_axis true [c] = [FLine.data [1], FLine.data [1, 0, 1]] ∧
    write_grid_axis false [c] = [FLine.data [1], FLine.data [1, 0, 1 / 2, 1, 1]] ∧
    read_axis (write_grid_axis b [c]) = some ([1 / 2], []) := by
  refine ⟨?_, write_axis_single_p4 c, write_axis_single_leg c, ?_⟩
  · cases b
    · rw [write_axis_single_leg, write_axis_single_leg]
    · rw [write_axis_single_p4, write_axis_single_p4]
  · cases b
    · rw [write_axis_single_leg]
      exact read_axis_single _ _ rfl
    · rw [write_axis_single_p4]
      have h := read_axis_single (FLine.data [1, 0, 1]) ((0 + 1) / 2) rfl
      norm_num at h
      exact h

/-! ## Grid round-trip infrastructure -/

theorem asCount_natCast (n : ℕ) : asCount (FLine.data [(n : ℚ)]) = some n := by
  simp [asCount, Rat.den_natCast, Rat.num_natCast]

theorem getD_map_of_lt (f : ℚ → ℚ) (l : List ℚ) (i : ℕ) (h : i < l.length) :
    (l.map f).getD i 0 = f (l.getD i 0) := by
  rw [List.getD_eq_getElem?_getD, List.getElem?_map, List.getElem?_eq_getElem h]
  simp [List.getD_eq_getElem?_getD, List.getElem?_eq_getElem h]

theorem mapM_map_of_forall_some {α β γ : Type} (l : List α) (h : α → β) (f : β → Option γ)
    (g : α → γ) (hfa : ∀ a ∈ l, f (h a) = some (g a)) :
    (l.map h).mapM f = some (l.map g) := by
  induction l with
  | nil => rfl
  | cons a t ih =>
    rw [List.map_cons, List.mapM_cons, hfa a (by simp),
      ih (fun x hx => hfa x (by simp [hx]))]
    rfl

theorem read_axis_append (n : ℕ) (lines rest : List FLine) (vals : List ℚ)
    (hlen : lines.length = n) (hm : lines.mapM process_grid_line = some vals) :
    read_axis (FLine.data [(n : ℚ)] :: (lines ++ rest)) = some (vals, rest) := by
  unfold read_axis
  simp only [List.head?_cons, Option.some_bind, asCount_natCast, List.tail_cons]
  rw [if_pos (by simp [← hlen]), ← hlen, List.take_left, List.drop_left, hm]
  rfl

theorem read_axis_write (b : Bool) (xs : List ℚ) (rest : List FLine) (hx : 1 < xs.length) :
    read_axis (write_grid_axis b xs ++ rest) =
      some ((List.range xs.length).map (fun i =>
        if b then
          (fmt12e (roundDec 12 (xs.getD i 0 - (xs.getD 1 0 - xs.getD 0 0) / 2)) +
            fmt12e (roundDec 12 (xs.getD i 0 + (xs.getD 1 0 - xs.getD 0 0) / 2))) / 2
        else
          fmt12e ((roundDec 12 (xs.getD i 0 + (xs.getD 1 0 - xs.getD 0 0) / 2) +
            roundDec 12 (xs.getD i 0 - (xs.getD 1 0 - xs.getD 0 0) / 2)) / 2)), rest) := by
  have hw : write_grid_axis b xs = FLine.data [(xs.length : ℚ)] ::
      (List.range xs.length).map (fun i =>
        if b then
          FLine.data [((i + 1 : ℕ) : ℚ),
            fmt12e ((xs.map (fun c => roundDec 12 (c - (xs.getD 1 0 - xs.getD 0 0) / 2))).getD i 0),
            fmt12e ((xs.map (fun c => roundDec 12 (c + (xs.getD 1 0 - xs.getD 0 0) / 2))).getD i 0)]
        else
          FLine.data [((i + 1 : ℕ) : ℚ),
            fmt12e ((xs.map (fun c => roundDec 12 (c - (xs.getD 1 0 - xs.getD 0 0) / 2))).getD i 0),
            fmt12e (((xs.map (fun c => roundDec 12 (c + (xs.getD 1 0 - xs.getD 0 0) / 2))).getD i 0 +
              (xs.map (fun c => roundDec 12 (c - (xs.getD 1 0 - xs.getD 0 0) / 2))).getD i 0) / 2),
            fmt12e ((xs.map (fun c => roundDec 12 (c + (xs.getD 1 0 - xs.getD 0 0) / 2))).getD i 0),
            fmt12e ((xs.map (fun c => roundDec 12 (c + (xs.getD 1 0 - xs.getD 0 0) / 2))).getD i 0 -
              (xs.map (fun c => roundDec 12 (c - (xs.getD 1 0 - xs.getD 0 0) / 2))).getD i 0)]) := by
    simp only [write_grid_axis, if_pos hx]
  rw [hw, List.cons_append]
  apply read_axis_append
  · simp
  · apply mapM_map_of_forall_some
    intro i hi
    have hlt : i < xs.length := List.mem_range.mp hi
    rw [getD_map_of_lt _ _ _ hlt, getD_map_of_lt _ _ _ hlt]
    cases b
    · rfl
    · rfl

theorem recovered_point_close (b : Bool) (c d : ℚ) :
    |(if b then
        (fmt12e (roundDec 12 (c - d / 2)) + fmt12e (roundDec 12 (c + d / 2))) / 2
      else
        fmt12e ((roundDec 12 (c + d / 2) + roundDec 12 (c - d / 2)) / 2)) - c|
      ≤ (1 + |c| + |d|) / 10 ^ 12 := by
  have hc : (0 : ℚ) ≤ |c| := abs_nonneg c
  have hd : (0 : ℚ) ≤ |d| := abs_nonneg d
  set a1 := roundDec 12 (c - d / 2) with ha1def
  set a2 := roundDec 12 (c + d / 2) with ha2def
  have h1 : |a1 - (c - d / 2)| ≤ 1 / (2 * 10 ^ 12) := roundDec_close 12 (c - d / 2)
  have h2 : |a2 - (c + d / 2)| ≤ 1 / (2 * 10 ^ 12) := roundDec_close 12 (c + d / 2)
  have hb1 : |c - d / 2| ≤ |c| + |d| / 2 := by
    calc |c - d / 2| ≤ |c| + |d / 2| := abs_sub c (d / 2)
      _ = |c| + |d| / 2 := by rw [abs_div]; norm_num
  have hb2 : |c + d / 2| ≤ |c| + |d| / 2 := by
    calc |c + d / 2| ≤ |c| + |d / 2| := abs_add c (d / 2)
      _ = |c| + |d| / 2 := by rw [abs_div]; norm_num
  have ha1 : |a1| ≤ |c| + |d| / 2 + 1 / (2 * 10 ^ 12) := by
    have := abs_sub_abs_le_abs_sub a1 (c - d / 2)
    linarith
  have ha2 : |a2| ≤ |c| + |d| / 2 + 1 / (2 * 10 ^ 12) := by
    have := abs_sub_abs_le_abs_sub a2 (c + d / 2)
    linarith
  cases b
  · simp only [Bool.false_eq_true, if_false]
    set m := (a2 + a1) / 2 with hmdef
    have hmc : |m - c| ≤ 1 / (2 * 10 ^ 12) := by
      have key : m - c = ((a1 - (c - d / 2)) + (a2 - (c + d / 2))) / 2 := by
        rw [hmdef]; ring
      rw [key, abs_div, abs_of_pos (by norm_num : (0 : ℚ) < 2)]
      have := abs_add (a1 - (c - d / 2)) (a2 - (c + d / 2))
      linarith
    have hmabs : |m| ≤ |c| + 1 / (2 * 10 ^ 12) := by
      have := abs_sub_abs_le_abs_sub m c
      linarith
    have h5 : |fmt12e m - m| ≤ |m| / (2 * 10 ^ 12) := fmt12e_close m
    have htri : |fmt12e m - c| ≤ |fmt12e m - m| + |m - c| := abs_sub_le (fmt12e m) m c
    have hstep : |m| / (2 * 10 ^ 12) ≤ (|c| + 1 / (2 * 10 ^ 12)) / (2 * 10 ^ 12) :=
      div_le_div_of_nonneg_right hmabs (by norm_num)
    linarith
  · simp only [if_true]
    have h3 : |fmt12e a1 - a1| ≤ |a1| / (2 * 10 ^ 12) := fmt12e_close a1
    have h4 : |fmt12e a2 - a2| ≤ |a2| / (2 * 10 ^ 12) := fmt12e_close a2
    have key : (fmt12e a1 + fmt12e a2) / 2 - c =
        ((fmt12e a1 - (c - d / 2)) + (fmt12e a2 - (c + d / 2))) / 2 := by ring
    rw [key, abs_div, abs_of_pos (by norm_num : (0 : ℚ) < 2)]
    have habs := abs_add (fmt12e a1 - (c - d / 2)) (fmt12e a2 - (c + d / 2))
    have ht1 : |fmt12e a1 - (c - d / 2)| ≤ |fmt12e a1 - a1| + |a1 - (c - d / 2)| :=
      abs_sub_le (fmt12e a1) a1 (c - d / 2)
    have ht2 : |fmt12e a2 - (c + d / 2)| ≤ |fmt12e a2 - a2| + |a2 - (c + d / 2)| :=
      abs_sub_le (fmt12e a2) a2 (c + d / 2)
    have hstep1 : |a1| / (2 * 10 ^ 12) ≤ (|c| + |d| / 2 + 1 / (2 * 10 ^ 12)) / (2 * 10 ^ 12) :=
      div_le_div_of_nonneg_right ha1 (by norm_num)
    have hstep2 : |a2| / (2 * 10 ^ 12) ≤ (|c| + |d| / 2 + 1 / (2 * 10 ^ 12)) / (2 * 10 ^ 12) :=
      div_le_div_of_nonneg_right ha2 (by norm_num)
    linarith

theorem head?_eq_headD (l : List ℚ) (h : l ≠ []) : l.head? = some (l.headD 0) := by
  cases l with
  | nil => exact absurd rfl h
  | cons a t => rfl

theorem getLast?_eq_getLastD (l : List ℚ) (h : l ≠ []) :
    l.getLast? = some (l.getLastD 0) := by
  have h2 : l.getLast?.isSome := List.getLast?_isSome.mpr h
  rcases Option.isSome_iff_exists.mp h2 with ⟨x, hx⟩
  rw [hx, List.getLastD_eq_getLast?, hx]
  rfl

theorem getD_map_range (n i : ℕ) (f : ℕ → ℚ) (h : i < n) :
    ((List.range n).map f).getD i 0 = f i := by
  rw [List.getD_eq_getElem?_getD, List.getElem?_map]
  simp [List.getElem?_range h]

theorem read_axis_write_rec (b : Bool) (xs : List ℚ) (rest : List FLine)
    (hx : 1 < xs.length) :
    read_axis (write_grid_axis b xs ++ rest) = some (recoveredAxis b xs, rest) :=
  read_axis_write b xs rest hx

theorem recoveredAxis_close (b : Bool) (xs : List ℚ) : CloseAxis xs (recoveredAxis b xs) := by
  constructor
  · simp [recoveredAxis]
  · intro i hi
    have hlt : i < xs.length := List.mem_range.mp hi
    rw [recoveredAxis, getD_map_range _ _ _ hlt]
    exact recovered_point_close b (xs.getD i 0) (xs.getD 1 0 - xs.getD 0 0)

theorem dropWhile_comment_replicate (k : ℕ) (ls : List FLine) :
    (List.replicate k FLine.comment ++ ls).dropWhile FLine.isComment =
      ls.dropWhile FLine.isComment := by
  induction k with
  | zero => rfl
  | succ n ih =>
    rw [List.replicate_succ, List.cons_append, List.dropWhile_cons]
    simp only [FLine.isComment, if_true]
    exact ih

theorem dropWhile_write_axis (b : Bool) (xs : List ℚ) (ls : List FLine) :
    (write_grid_axis b xs ++ ls).dropWhile FLine.isComment = write_grid_axis b xs ++ ls := by
  simp only [write_grid_axis, List.cons_append, List.dropWhile_cons]
  simp [FLine.isComment]

theorem gridNdim_le_three (g : Grid) : gridNdim g ≤ 3 := by
  have h := List.length_filter_le (fun xs => decide (1 < xs.length)) (axes g)
  simpa [gridNdim, axes] using h

theorem write_grid_header_some (g : Grid) (geom : List Char)
    (h : ∀ i ∈ List.range (gridNdim g), (axes g).getD i [] ≠ []) :
    write_grid_header g geom = some ⟨gridNdim g, geom.map Char.toUpper,
      (List.range (gridNdim g)).map (fun i =>
        ⟨axisName i, roundDec 5 (((axes g).getD i []).headD 0),
         roundDec 5 (((axes g).getD i []).getLastD 0), ((axes g).getD i []).length⟩)⟩ := by
  unfold write_grid_header
  rw [mapM_of_forall_some _ _ (fun i =>
    (⟨axisName i, roundDec 5 (((axes g).getD i []).headD 0),
      roundDec 5 (((axes g).getD i []).getLastD 0),
      ((axes g).getD i []).length⟩ : AxisDescriptor)) ?_]
  · rfl
  · intro i hi
    have hne := h i hi
    simp only [head?_eq_headD _ hne, getLast?_eq_getLastD _ hne, Option.some_bind]

theorem axes_getD_ne_nil (g : Grid) (hlen : ∀ xs ∈ axes g, 1 < xs.length) :
    ∀ i ∈ List.range (gridNdim g), (axes g).getD i [] ≠ [] := by
  intro i hi
  have h3 : i < 3 := lt_of_lt_of_le (List.mem_range.mp hi) (gridNdim_le_three g)
  have hmem : (axes g).getD i [] ∈ axes g := by
    interval_cases i
    · simp [axes]
    · simp [axes]
    · simp [axes]
  have := hlen _ hmem
  exact List.ne_nil_of_length_pos (by omega)

/-- C2: for a grid whose axes all have more than one point and uniform
spacing, writing in either format and reading back succeeds and
reproduces every center value of every axis within the
12-decimal-digit rounding tolerance. -/
theorem c2_grid_roundtrip (b : Bool) (geom : List Char) (g : Grid)
    (hlen : ∀ xs ∈ axes g, 1 < xs.length)
    (hsp : ∀ xs ∈ axes g, UniformSpacing xs) :
    ∃ out g2, write_grid b g geom = some out ∧ read_grid out = some g2 ∧
      CloseAxis g.x1 g2.x1 ∧ CloseAxis g.x2 g2.x2 ∧ CloseAxis g.x3 g2.x3 := by
  have hx1 : 1 < g.x1.length := hlen g.x1 (by simp [axes])
  have hx2 : 1 < g.x2.length := hlen g.x2 (by simp [axes])
  have hx3 : 1 < g.x3.length := hlen g.x3 (by simp [axes])
  have hcore : ∀ k, read_grid (List.replicate k FLine.comment ++
      (write_grid_axis b g.x1 ++ write_grid_axis b g.x2 ++ write_grid_axis b g.x3)) =
      some ⟨recoveredAxis b g.x1, recoveredAxis b g.x2, recoveredAxis b g.x3⟩ := by
    intro k
    unfold read_grid
    rw [dropWhile_comment_replicate, List.append_assoc, dropWhile_write_axis,
      read_axis_write_rec b g.x1 _ hx1]
    simp only [Option.some_bind]
    rw [read_axis_write_rec b g.x2 _ hx2]
    simp only [Option.some_bind]
    have h3 : write_grid_axis b g.x3 = write_grid_axis b g.x3 ++ [] :=
      (List.append_nil _).symm
    rw [h3, read_axis_write_rec b g.x3 [] hx3]
    rfl
  cases b
  · refine ⟨write_grid_axis false g.x1 ++ write_grid_axis false g.x2 ++
      write_grid_axis false g.x3,
      ⟨recoveredAxis false g.x1, recoveredAxis false g.x2, recoveredAxis false g.x3⟩,
      by simp [write_grid], ?_, recoveredAxis_close false g.x1,
      recoveredAxis_close false g.x2, recoveredAxis_close false g.x3⟩
    have := hcore 0
    simpa using this
  · have hne := axes_getD_ne_nil g hlen
    have hh := write_grid_header_some g geom hne
    refine ⟨List.replicate (headerLineCount ⟨gridNdim g, geom.map Char.toUpper,
        (List.range (gridNdim g)).map (fun i =>
          ⟨axisName i, roundDec 5 (((axes g).getD i []).headD 0),
           roundDec 5 (((axes g).getD i []).getLastD 0),
           ((axes g).getD i []).length⟩)⟩) FLine.comment ++
        (write_grid_axis true g.x1 ++ write_grid_axis true g.x2 ++
          write_grid_axis true g.x3),
      ⟨recoveredAxis true g.x1, recoveredAxis true g.x2, recoveredAxis true g.x3⟩,
      ?_, hcore _, recoveredAxis_close true g.x1, recoveredAxis_close true g.x2,
      recoveredAxis_close true g.x3⟩
    simp [write_grid, hh]

/-- C2 witness: the round-trip statement applied to the concrete grid
with all three axes equal to (0, 1). -/
theorem c2_witness :
    (∀ xs ∈ axes ⟨[0, 1], [0, 1], [0, 1]⟩, 1 < xs.length) ∧
    (∀ xs ∈ axes ⟨[0, 1], [0, 1], [0, 1]⟩, UniformSpacing xs) ∧
    ∃ out g2, write_grid true ⟨[0, 1], [0, 1], [0, 1]⟩ [] = some out ∧
      read_grid out = some g2 ∧
      CloseAxis [0, 1] g2.x1 ∧ CloseAxis [0, 1] g2.x2 ∧ CloseAxis [0, 1] g2.x3 := by
  have h1 : ∀ xs ∈ axes ⟨[0, 1], [0, 1], [0, 1]⟩, 1 < xs.length := by
    intro xs hxs
    simp [axes] at hxs
    subst hxs
    norm_num
  have h2 : ∀ xs ∈ axes (⟨[0, 1], [0, 1], [0, 1]⟩ : Grid), UniformSpacing xs := by
    intro xs hxs
    simp [axes] at hxs
    have huni : UniformSpacing [0, 1] := by
      intro i hi
      have : i = 0 := by simpa using hi
      subst this
      rfl
    subst hxs
    exact huni
  exact ⟨h1, h2, c2_grid_roundtrip true [] ⟨[0, 1], [0, 1], [0, 1]⟩ h1 h2⟩

/-! ## Header content (C4) -/

theorem roundDec_int_val (p : ℕ) (x : ℚ) (n : ℤ) (h : x * 10 ^ p = (n : ℚ)) :
    roundDec p x = x := by
  unfold roundDec
  rw [h, rndHEQ_intCast, ← h]
  field_simp

theorem mapM_mem_isSome {α β : Type} {l : List α} {f : α → Option β} {ys : List β}
    (h : l.mapM f = some ys) : ∀ a ∈ l, (f a).isSome := by
  induction l generalizing ys with
  | nil =>
    intro a ha
    simp at ha
  | cons a t ih =>
    intro x hx
    rw [List.mapM_cons] at h
    cases hfa : f a with
    | none =>
      rw [hfa] at h
      simp at h
    | some b =>
      rw [hfa] at h
      cases hmt : t.mapM f with
      | none =>
        rw [hmt] at h
        simp at h
      | some bs =>
        rcases List.mem_cons.mp hx with rfl | hxt
        · rw [hfa]
          rfl
        · exact ih hmt x hxt

/-- C4 amended: the v4 header states DIMENSIONS equal to the number of
axes with more than one point and upper-cases the geometry label, but
its per-axis descriptor lines cover the first ndim axes in the fixed
order x1, x2, x3 (each giving that axis's identifier, first and last
center values rounded to 5 decimals, and point count) rather than the
axes that actually have more than one point; the two coincide exactly
when the axes with more than one point form a prefix of (x1, x2, x3),
and only then does every descriptor belong to an active dimension. -/
theorem c4_header_content (g : Grid) (geom : List Char) (hd : GridHeader)
    (h : write_grid_header g geom = some hd) :
    hd.ndim = ((axes g).filter (fun xs => 1 < xs.length)).length ∧
    hd.geometry = geom.map Char.toUpper ∧
    hd.descriptors = (List.range (gridNdim g)).map (fun i =>
      ⟨axisName i, roundDec 5 (((axes g).getD i []).headD 0),
       roundDec 5 (((axes g).getD i []).getLastD 0), ((axes g).getD i []).length⟩) ∧
    ((∀ i ∈ List.range (gridNdim g), 1 < ((axes g).getD i []).length) →
      ∀ d ∈ hd.descriptors, 1 < d.nx) := by
  have hne : ∀ i ∈ List.range (gridNdim g), (axes g).getD i [] ≠ [] := by
    intro i hi hnil
    unfold write_grid_header at h
    cases hm : (List.range (gridNdim g)).mapM (fun i =>
        let xs := (axes g).getD i []
        xs.head?.bind fun x0 =>
          xs.getLast?.bind fun xl =>
            some (⟨axisName i, roundDec 5 x0, roundDec 5 xl, xs.length⟩ : AxisDescriptor)) with
    | none =>
      rw [hm] at h
      simp at h
    | some descs =>
      have hsome := mapM_mem_isSome hm i hi
      simp only [hnil] at hsome
      simp at hsome
  have hfull := write_grid_header_some g geom hne
  rw [h] at hfull
  have hhd := Option.some.inj hfull
  subst hhd
  refine ⟨rfl, rfl, rfl, ?_⟩
  intro hall d hdmem
  rcases List.mem_map.mp hdmem with ⟨i, hi, rfl⟩
  exact hall i hi

/-- C4 counterexample: for the grid with x1 degenerate (one point, value
5) and x2, x3 active, the header claims 2 dimensions but its descriptor
lines are for x1 and x2: a descriptor with point count 1 is emitted for
the inactive x1 and no line is emitted for the active x3, so the
descriptors are not the axes with more than one point. -/
theorem c4_counterexample_nonprefix :
    write_grid_header ⟨[5], [0, 1], [2, 3]⟩ [] =
      some ⟨2, [], [⟨"X1".data, 5, 5, 1⟩, ⟨"X2".data, 0, 1, 2⟩]⟩ ∧
    ([⟨"X1".data, 5, 5, 1⟩, ⟨"X2".data, 0, 1, 2⟩] : List AxisDescriptor).all
      (fun d => decide (1 < d.nx)) = false := by
  constructor
  · have hnd : gridNdim ⟨[5], [0, 1], [2, 3]⟩ = 2 := by decide
    have hne : ∀ i ∈ List.range (gridNdim ⟨[5], [0, 1], [2, 3]⟩),
        (axes ⟨[5], [0, 1], [2, 3]⟩).getD i [] ≠ [] := by
      rw [hnd]
      decide
    have h := write_grid_header_some ⟨[5], [0, 1], [2, 3]⟩ [] hne
    rw [h, hnd]
    have h5 : roundDec 5 (5 : ℚ) = 5 := roundDec_int_val 5 5 500000 (by norm_num)
    have h0 : roundDec 5 (0 : ℚ) = 0 := roundDec_int_val 5 0 0 (by norm_num)
    have h1 : roundDec 5 (1 : ℚ) = 1 := roundDec_int_val 5 1 100000 (by norm_num)
    simp [axes, axisName, List.range_succ, h5, h0, h1]
  · rfl

/-- C4 witness: the amended header statement at the concrete grid whose
active axes form a prefix (all three axes have two points). -/
theorem c4_witness :
    write_grid_header ⟨[0, 1], [2, 3], [4, 5]⟩ [] =
      some ⟨3, [], [⟨"X1".data, 0, 1, 2⟩, ⟨"X2".data, 2, 3, 2⟩, ⟨"X3".data, 4, 5, 2⟩]⟩ ∧
    ((⟨3, [], [⟨"X1".data, 0, 1, 2⟩, ⟨"X2".data, 2, 3, 2⟩,
        ⟨"X3".data, 4, 5, 2⟩]⟩ : GridHeader).ndim =
      ((axes ⟨[0, 1], [2, 3], [4, 5]⟩).filter (fun xs => 1 < xs.length)).length ∧
    (⟨3, [], [⟨"X1".data, 0, 1, 2⟩, ⟨"X2".data, 2, 3, 2⟩,
        ⟨"X3".data, 4, 5, 2⟩]⟩ : GridHeader).geometry = ([] : List Char).map Char.toUpper ∧
    (⟨3, [], [⟨"X1".data, 0, 1, 2⟩, ⟨"X2".data, 2, 3, 2⟩,
        ⟨"X3".data, 4, 5, 2⟩]⟩ : GridHeader).descriptors =
      (List.range (gridNdim ⟨[0, 1], [2, 3], [4, 5]⟩)).map (fun i =>
        ⟨axisName i, roundDec 5 (((axes ⟨[0, 1], [2, 3], [4, 5]⟩).getD i []).headD 0),
         roundDec 5 (((axes ⟨[0, 1], [2, 3], [4, 5]⟩).getD i []).getLastD 0),
         ((axes ⟨[0, 1], [2, 3], [4, 5]⟩).getD i []).length⟩) ∧
    ((∀ i ∈ List.range (gridNdim ⟨[0, 1], [2, 3], [4, 5]⟩),
        1 < ((axes ⟨[0, 1], [2, 3], [4, 5]⟩).getD i []).length) →
      ∀ d ∈ (⟨3, [], [⟨"X1".data, 0, 1, 2⟩, ⟨"X2".data, 2, 3, 2⟩,
        ⟨"X3".data, 4, 5, 2⟩]⟩ : GridHeader).descriptors, 1 < d.nx)) := by
  have hnd : gridNdim ⟨[0, 1], [2, 3], [4, 5]⟩ = 3 := by decide
  have hne : ∀ i ∈ List.range (gridNdim ⟨[0, 1], [2, 3], [4, 5]⟩),
      (axes ⟨[0, 1], [2, 3], [4, 5]⟩).getD i [] ≠ [] := by
    rw [hnd]
    decide
  have h0 : roundDec 5 (0 : ℚ) = 0 := roundDec_int_val 5 0 0 (by norm_num)
  have h1 : roundDec 5 (1 : ℚ) = 1 := roundDec_int_val 5 1 100000 (by norm_num)
  have h2 : roundDec 5 (2 : ℚ) = 2 := roundDec_int_val 5 2 200000 (by norm_num)
  have h3 : roundDec 5 (3 : ℚ) = 3 := roundDec_int_val 5 3 300000 (by norm_num)
  have h4 : roundDec 5 (4 : ℚ) = 4 := roundDec_int_val 5 4 400000 (by norm_num)
  have h5 : roundDec 5 (5 : ℚ) = 5 := roundDec_int_val 5 5 500000 (by norm_num)
  have hcomp : write_grid_header ⟨[0, 1], [2, 3], [4, 5]⟩ [] =
      some ⟨3, [], [⟨"X1".data, 0, 1, 2⟩, ⟨"X2".data, 2, 3, 2⟩, ⟨"X3".data, 4, 5, 2⟩]⟩ := by
    have h := write_grid_header_some ⟨[0, 1], [2, 3], [4, 5]⟩ [] hne
    rw [h, hnd]
    simp [axes, axisName, List.range_succ, h0, h1, h2, h3, h4, h5]
  exact ⟨hcomp, c4_header_content _ _ _ hcomp⟩

/-! ## Output log (C7, C8) -/

theorem odLookup_odSet_self {κ α : Type} [DecidableEq κ] (m : List (κ × α)) (k : κ) (v : α) :
    odLookup (odSet m k v) k = some v := by
  induction m with
  | nil => simp [odSet, odLookup]
  | cons p rest ih =>
    rcases p with ⟨k1, v1⟩
    by_cases hk : k1 = k
    · simp [odSet, hk, odLookup]
    · simp [odSet, hk, odLookup, ih]

theorem odLookup_odSet_ne {κ α : Type} [DecidableEq κ] (m : List (κ × α)) (k k2 : κ) (v : α)
    (h : k ≠ k2) : odLookup (odSet m k v) k2 = odLookup m k2 := by
  induction m with
  | nil => simp [odSet, odLookup, fun hc => h hc]
  | cons p rest ih =>
    rcases p with ⟨k1, v1⟩
    by_cases hk : k1 = k
    · subst hk
      simp [odSet, odLookup, fun hc => h hc]
    · simp [odSet, hk, odLookup, ih]

theorem foldlM_none_of_mem {α σ : Type} (f : σ → α → Option σ) (l : List α) (a : α)
    (ha : a ∈ l) (hf : ∀ s, f s a = none) : ∀ s, l.foldlM f s = none := by
  induction l with
  | nil => cases ha
  | cons x t ih =>
    intro s
    rw [List.foldlM_cons]
    rcases List.mem_cons.mp ha with rfl | hat
    · rw [hf s]
      rfl
    · cases hfx : f s x with
      | none => rfl
      | some s2 => exact ih hat s2

theorem read_log_line_none_of_short (l : String) (hshort : (pySplit l).length < 5) :
    read_log_line l = none := by
  unfold read_log_line
  dsimp only
  have h4 : (pySplit l)[4]? = none := List.getElem?_eq_none (by omega)
  cases h0 : (pySplit l)[0]? with
  | none => rw [Option.none_bind]
  | some s0 =>
    rw [Option.some_bind]
    cases h1 : pyIntTok? s0 with
    | none => rw [Option.none_bind]
    | some n =>
      rw [Option.some_bind]
      cases h2 : (pySplit l)[1]? with
      | none => rw [Option.none_bind]
      | some s1 =>
        rw [Option.some_bind]
        cases h3 : pyFloatTok? s1 with
        | none => rw [Option.none_bind]
        | some t =>
          rw [Option.some_bind, h4, Option.none_bind]

/-- C7 amended: the reader fails on any catalog line with fewer than 5
whitespace-separated fields (at least 5 fields are required, not 7:
fields 0, 1 and 4 are accessed, while the variable slice from field 6
onward never fails). -/
theorem c7_short_line_fails (lines : List String) (l : String) (hmem : l ∈ lines)
    (hshort : (pySplit l).length < 5) : read_output_log lines = none := by
  apply foldlM_none_of_mem _ _ l hmem
  intro s
  rw [read_log_line_none_of_short l hshort]
  rfl

/-- C7 counterexample: a catalog line with exactly 5 whitespace-separated
fields (fewer than 7) does not fail: the reader returns a record for it
(with an empty variable list), because the variable slice from field 6
onward never raises. -/
theorem c7_counterexample_five_fields :
    read_output_log [("1 2.0 0.0 100 dbl")] =
      some [(1, ⟨2 * time2yrs, 2, "dbl".data, []⟩)] := by
  have hline : read_log_line ("1 2.0 0.0 100 dbl") =
      some (((1 : ℕ) : ℤ), ⟨((1 : ℚ) * (((2 : ℕ) : ℚ) + ((0 : ℕ) : ℚ) / 10 ^ 1)) * time2yrs,
        (1 : ℚ) * (((2 : ℕ) : ℚ) + ((0 : ℕ) : ℚ) / 10 ^ 1), "dbl".data, []⟩) := rfl
  unfold read_output_log
  simp only [List.foldlM_cons, List.foldlM_nil, hline, Option.map_some]
  have hval : (1 : ℚ) * (((2 : ℕ) : ℚ) + ((0 : ℕ) : ℚ) / 10 ^ 1) = 2 := by
    push_cast
    norm_num
  simp [odSet, hval]

/-- C7 witness: the amended statement at the concrete one-line catalog
whose single line has 3 fields. -/
theorem c7_witness :
    ("1 2.0 0.0") ∈ [("1 2.0 0.0")] ∧ (pySplit ("1 2.0 0.0")).length < 5 ∧
    read_output_log [("1 2.0 0.0")] = none :=
  ⟨by simp, by decide,
    c7_short_line_fails [("1 2.0 0.0")] ("1 2.0 0.0") (by simp) (by decide)⟩

theorem read_log_line_inv (l : String) (n : ℤ) (rec : OutRecord)
    (h : read_log_line l = some (n, rec)) :
    rec.time = rec.rawTime * time2yrs ∧
    (pySplit l)[4]? = some rec.outputFormat ∧
    rec.vars = (pySplit l).drop 6 ∧
    (∃ s0, (pySplit l)[0]? = some s0 ∧ pyIntTok? s0 = some n) ∧
    (∃ s1, (pySplit l)[1]? = some s1 ∧ pyFloatTok? s1 = some rec.rawTime) := by
  unfold read_log_line at h
  dsimp only at h
  cases h0 : (pySplit l)[0]? with
  | none =>
    rw [h0, Option.none_bind] at h
    cases h
  | some s0 =>
    rw [h0, Option.some_bind] at h
    cases h1 : pyIntTok? s0 with
    | none =>
      rw [h1, Option.none_bind] at h
      cases h
    | some k =>
      rw [h1, Option.some_bind] at h
      cases h2 : (pySplit l)[1]? with
      | none =>
        rw [h2, Option.none_bind] at h
        cases h
      | some s1 =>
        rw [h2, Option.some_bind] at h
        cases h3 : pyFloatTok? s1 with
        | none =>
          rw [h3, Option.none_bind] at h
          cases h
        | some t =>
          rw [h3, Option.some_bind] at h
          cases h4 : (pySplit l)[4]? with
          | none =>
            rw [h4, Option.none_bind] at h
            cases h
          | some fmt =>
            rw [h4, Option.some_bind] at h
            have hp := Option.some.inj h
            injection hp with hk hrec
            subst hk
            subst hrec
            exact ⟨rfl, rfl, rfl, ⟨s0, rfl, h1⟩, ⟨s1, rfl, h3⟩⟩

theorem foldlog_lookup (lines : List String) (d0 d : List (ℤ × OutRecord))
    (h : lines.foldlM (fun d l => (read_log_line l).map (fun r => odSet d r.1 r.2)) d0 =
      some d) (n : ℤ) :
    odLookup d n = ((lines.reverse.find? (fun l =>
        (read_log_line l).map Prod.fst == some n)).bind
      (fun l => (read_log_line l).map Prod.snd)).or (odLookup d0 n) := by
  induction lines using List.reverseRecOn generalizing d with
  | nil =>
    simp only [List.foldlM_nil] at h
    have hd : d0 = d := by simpa using h
    subst hd
    simp
  | append_singleton ls a ih =>
    rw [List.foldlM_append] at h
    cases hls : ls.foldlM (fun d l => (read_log_line l).map (fun r => odSet d r.1 r.2)) d0 with
    | none =>
      rw [hls] at h
      simp at h
    | some d1 =>
      rw [hls] at h
      have h2 : ((read_log_line a).map (fun r => odSet d1 r.1 r.2)) = some d := by
        simpa using h
      cases hra : read_log_line a with
      | none =>
        rw [hra] at h2
        cases h2
      | some r =>
        rw [hra] at h2
        have hd : d = odSet d1 r.1 r.2 := by
          have := Option.some.inj h2
          exact this.symm
        subst hd
        have hrev : (ls ++ [a]).reverse = a :: ls.reverse := by
          simp
        rw [hrev]
        by_cases hp : ((read_log_line a).map Prod.fst == some n) = true
        · rw [List.find?_cons_of_pos
            (p := fun l => (read_log_line l).map Prod.fst == some n) _ hp]
          have hkey : r.1 = n := by
            rw [hra] at hp
            simpa using hp
          rw [← hkey, odLookup_odSet_self, Option.some_bind, hra]
          rfl
        · rw [List.find?_cons_of_neg
            (p := fun l => (read_log_line l).map Prod.fst == some n) _ hp]
          have hkey : r.1 ≠ n := by
            rw [hra] at hp
            intro hc
            exact hp (by simp [hc])
          rw [odLookup_odSet_ne _ _ _ _ hkey]
          exact ih d1 hls

/-- C8: on a successfully read catalog, every line's record is keyed by
the integer first field and holds the raw time (field 1 as a float),
the time in years (raw time times time2yrs), the format label
(field 4) and the variable list (fields 6 onward); looking up an index
in the result returns the record of the last line with that index
(later lines overwrite earlier ones). -/
theorem c8_output_log_records (lines : List String) (data : List (ℤ × OutRecord))
    (h : read_output_log lines = some data) :
    (∀ l ∈ lines, ∀ n rec, read_log_line l = some (n, rec) →
      rec.time = rec.rawTime * time2yrs ∧
      (pySplit l)[4]? = some rec.outputFormat ∧
      rec.vars = (pySplit l).drop 6 ∧
      (∃ s0, (pySplit l)[0]? = some s0 ∧ pyIntTok? s0 = some n) ∧
      (∃ s1, (pySplit l)[1]? = some s1 ∧ pyFloatTok? s1 = some rec.rawTime)) ∧
    (∀ n : ℤ, odLookup data n = ((lines.reverse.find? (fun l =>
        (read_log_line l).map Prod.fst == some n)).bind
      (fun l => (read_log_line l).map Prod.snd))) := by
  constructor
  · intro l _ n rec hr
    exact read_log_line_inv l n rec hr
  · intro n
    unfold read_output_log at h
    have := foldlog_lookup lines [] data h n
    simpa [odLookup] using this

/-- C8 witness: the record statement at the specification's example line
(index 3, raw time 12.5, label dbl, variables rho vx1 vx2). -/
theorem c8_witness :
    read_output_log [("3 12.5 0.0 100 dbl 0 rho vx1 vx2")] =
      some [(3, ⟨25 / 2 * time2yrs, 25 / 2, "dbl".data,
        ["rho".data, "vx1".data, "vx2".data]⟩)] ∧
    odLookup [((3 : ℤ), (⟨25 / 2 * time2yrs, 25 / 2, "dbl".data,
        ["rho".data, "vx1".data, "vx2".data]⟩ : OutRecord))] 3 =
      some ⟨25 / 2 * time2yrs, 25 / 2, "dbl".data, ["rho".data, "vx1".data, "vx2".data]⟩ := by
  have hval : (1 : ℚ) * (((12 : ℕ) : ℚ) + ((5 : ℕ) : ℚ) / 10 ^ 1) = 25 / 2 := by
    push_cast
    norm_num
  have hline : read_log_line ("3 12.5 0.0 100 dbl 0 rho vx1 vx2") =
      some (((3 : ℕ) : ℤ), ⟨(1 * (((12 : ℕ) : ℚ) + ((5 : ℕ) : ℚ) / 10 ^ 1)) * time2yrs,
        1 * (((12 : ℕ) : ℚ) + ((5 : ℕ) : ℚ) / 10 ^ 1), "dbl".data,
        ["rho".data, "vx1".data, "vx2".data]⟩) := rfl
  have hcomp : read_output_log [("3 12.5 0.0 100 dbl 0 rho vx1 vx2")] =
      some [(3, ⟨25 / 2 * time2yrs, 25 / 2, "dbl".data,
        ["rho".data, "vx1".data, "vx2".data]⟩)] := by
    unfold read_output_log
    simp only [List.foldlM_cons, List.foldlM_nil, hline, Option.map_some]
    simp [odSet, hval]
    norm_num
  refine ⟨hcomp, ?_⟩
  have h2 := (c8_output_log_records _ _ hcomp).2 3
  rw [h2]
  rw [show (([("3 12.5 0.0 100 dbl 0 rho vx1 vx2")] : List String).reverse.find? (fun l =>
      (read_log_line l).map Prod.fst == some 3)).bind
      (fun l => (read_log_line l).map Prod.snd) =
      some ⟨(1 * (((12 : ℕ) : ℚ) + ((5 : ℕ) : ℚ) / 10 ^ 1)) * time2yrs,
        1 * (((12 : ℕ) : ℚ) + ((5 : ℕ) : ℚ) / 10 ^ 1), "dbl".data,
        ["rho".data, "vx1".data, "vx2".data]⟩ from rfl]
  rw [hval]

/-! ## Character-list helpers for the config codec -/

theorem dropWhile_headD_false (p : Char → Bool) (l : List Char) (d : Char)
    (h : l.dropWhile p ≠ []) : p ((l.dropWhile p).headD d) = false := by
  induction l with
  | nil => exact absurd rfl h
  | cons a t ih =>
    by_cases hpa : p a
    · rw [List.dropWhile_cons, if_pos hpa] at h ⊢
      exact ih h
    · rw [List.dropWhile_cons, if_neg hpa]
      simpa using hpa

theorem dropWhile_eq_self_of_headD (p : Char → Bool) (l : List Char) (d : Char)
    (hne : l ≠ []) (h : p (l.headD d) = false) : l.dropWhile p = l := by
  cases l with
  | nil => exact absurd rfl hne
  | cons a t =>
    rw [List.dropWhile_cons, if_neg (by simp at h; simp [h])]

theorem headD_append_left (l1 l2 : List Char) (d : Char) (h : l1 ≠ []) :
    (l1 ++ l2).headD d = l1.headD d := by
  cases l1 with
  | nil => exact absurd rfl h
  | cons a t => rfl

theorem getLastD_append_right (l1 l2 : List Char) (d : Char) (h : l2 ≠ []) :
    (l1 ++ l2).getLastD d = l2.getLastD d := by
  rw [List.getLastD_eq_getLast?, List.getLastD_eq_getLast?,
    List.getLast?_append_of_ne_nil l1 h]

theorem dropWhile_suffix_exists (p : Char → Bool) (l : List Char) :
    ∃ s, l = s ++ l.dropWhile p :=
  ⟨l.takeWhile p, (List.takeWhile_append_dropWhile p l).symm⟩

theorem dropWhile_getLastD (p : Char → Bool) (l : List Char) (d : Char)
    (h : l.dropWhile p ≠ []) : (l.dropWhile p).getLastD d = l.getLastD d := by
  rcases dropWhile_suffix_exists p l with ⟨s, hs⟩
  conv_rhs => rw [hs]
  rw [getLastD_append_right _ _ _ h]

theorem mem_of_getLastD (l : List Char) (d : Char) (h : l ≠ []) : l.getLastD d ∈ l := by
  rw [List.getLastD_eq_getLast?, List.getLast?_eq_getLast l h]
  exact List.getLast_mem h

theorem headD_reverse (l : List Char) (d : Char) : l.reverse.headD d = l.getLastD d := by
  rw [List.headD_eq_head?, List.head?_reverse, List.getLastD_eq_getLast?]

theorem getLastD_reverse (l : List Char) (d : Char) : l.reverse.getLastD d = l.headD d := by
  rw [List.getLastD_eq_getLast?, List.getLast?_reverse, List.headD_eq_head?]

theorem pyStrip_props (l : List Char) (h : pyStrip l ≠ []) :
    ((pyStrip l).headD ' ').isWhitespace = false ∧
    ((pyStrip l).getLastD ' ').isWhitespace = false := by
  unfold pyStrip at h ⊢
  set A := l.dropWhile Char.isWhitespace with hA
  set B := A.reverse.dropWhile Char.isWhitespace with hB
  have hBne : B ≠ [] := by
    intro hc
    rw [hc] at h
    exact h rfl
  have hArevne : A.reverse ≠ [] := by
    intro hc
    rw [hB, hc] at hBne
    exact hBne rfl
  have hAne : A ≠ [] := by
    intro hc
    rw [hc] at hArevne
    exact hArevne rfl
  constructor
  · rcases dropWhile_suffix_exists Char.isWhitespace A.reverse with ⟨s, hs⟩
    have hAeq : A = B.reverse ++ s.reverse := by
      have := congrArg List.reverse hs
      rw [List.reverse_reverse, List.reverse_append] at this
      rw [← hB] at this
      exact this
    have hBrevne : B.reverse ≠ [] := by
      simpa using hBne
    have h1 : A.headD ' ' = B.reverse.headD ' ' := by
      rw [hAeq, headD_append_left _ _ _ hBrevne]
    have h2 := dropWhile_headD_false Char.isWhitespace l ' ' hAne
    rw [← hA] at h2
    rw [← h1]
    exact h2
  · rw [getLastD_reverse]
    exact dropWhile_headD_false Char.isWhitespace A.reverse ' ' hBne

theorem pyStrip_eq_self (l : List Char) (hne : l ≠ [])
    (hh : ((l.headD ' ').isWhitespace) = false)
    (hl : ((l.getLastD ' ').isWhitespace) = false) : pyStrip l = l := by
  unfold pyStrip
  rw [dropWhile_eq_self_of_headD _ _ ' ' hne hh]
  have hrevne : l.reverse ≠ [] := by simpa using hne
  rw [dropWhile_eq_self_of_headD _ _ ' ' hrevne (by rw [headD_reverse]; exact hl)]
  exact List.reverse_reverse l

theorem getLastD_irrel (l : List Char) (d1 d2 : Char) (h : l ≠ []) :
    l.getLastD d1 = l.getLastD d2 := by
  rw [List.getLastD_eq_getLast?, List.getLastD_eq_getLast?, List.getLast?_eq_getLast l h]
  rfl

theorem pyStrip_dropped (r : List Char) (hrl : (r.getLastD ' ').isWhitespace = false)
    (hrne : r ≠ []) : pyStrip r = r.dropWhile Char.isWhitespace := by
  unfold pyStrip
  have hAne : r.dropWhile Char.isWhitespace ≠ [] := by
    intro hc
    have hall := List.dropWhile_eq_nil_iff.mp hc
    have hmem := mem_of_getLastD r ' ' hrne
    have := hall _ hmem
    rw [this] at hrl
    cases hrl
  have hlast : (r.dropWhile Char.isWhitespace).getLastD ' ' = r.getLastD ' ' :=
    dropWhile_getLastD Char.isWhitespace r ' ' hAne
  have hrevne : (r.dropWhile Char.isWhitespace).reverse ≠ [] := by
    simpa using hAne
  rw [dropWhile_eq_self_of_headD Char.isWhitespace _ ' ' hrevne
    (by rw [headD_reverse, hlast]; exact hrl)]
  exact List.reverse_reverse _

theorem splitFirstSpace_props (line : List Char)
    (hh : ((line.headD ' ').isWhitespace) = false)
    (hl : ((line.getLastD ' ').isWhitespace) = false)
    (hsp : ' ' ∈ line) :
    ∃ k r, splitFirstSpace line = some (k, r) ∧
      GoodKey k ∧ k.headD ' ' = line.headD ' ' ∧
      GoodVal (pyStrip r) ∧ (pyStrip r).getLastD ' ' = line.getLastD ' ' := by
  have hne : line ≠ [] := List.ne_nil_of_mem hsp
  have hws : (' ' : Char).isWhitespace = true := by decide
  have hheadne : line.headD ' ' ≠ ' ' := by
    intro hc
    rw [hc, hws] at hh
    cases hh
  set k := line.takeWhile (fun c => c != ' ') with hk
  set D := line.dropWhile (fun c => c != ' ') with hD
  have hDne : D ≠ [] := by
    intro hc
    have hall := List.dropWhile_eq_nil_iff.mp (hD ▸ hc)
    have := hall ' ' hsp
    simp at this
  have hDhead : D.headD ' ' = ' ' := by
    have := dropWhile_headD_false (fun c => c != ' ') line ' ' (by rw [← hD]; exact hDne)
    rw [← hD] at this
    simpa using this
  obtain ⟨r, hr⟩ : ∃ r, D = ' ' :: r := by
    cases hDc : D with
    | nil => exact absurd hDc hDne
    | cons b t =>
      refine ⟨t, ?_⟩
      rw [hDc] at hDhead
      simp at hDhead
      rw [hDhead]
  have hline : line = k ++ (' ' :: r) := by
    rw [hk, ← hr, hD]
    exact (List.takeWhile_append_dropWhile _ line).symm
  have hkne : k ≠ [] := by
    cases hlc : line with
    | nil => exact absurd hlc hne
    | cons a t =>
      have ha : a ≠ ' ' := by
        rw [hlc] at hheadne
        simpa using hheadne
      rw [hk, hlc, List.takeWhile_cons, if_pos (by simpa using ha)]
      simp
  have hkhead : k.headD ' ' = line.headD ' ' := by
    conv_rhs => rw [hline]
    rw [headD_append_left _ _ _ hkne]
  have hknosp : ' ' ∉ k := by
    intro hc
    have := List.mem_takeWhile_imp (hk ▸ hc)
    simp at this
  have hgoodk : GoodKey k := ⟨hkne, hknosp, by rw [hkhead]; exact hh⟩
  have h1 : line.getLastD ' ' = (' ' :: r).getLastD ' ' := by
    conv_lhs => rw [hline]
    exact getLastD_append_right _ _ ' ' (by simp)
  have hrne : r ≠ [] := by
    intro hc
    rw [hc] at h1
    have h2 : line.getLastD ' ' = ' ' := by simpa using h1
    rw [h2, hws] at hl
    cases hl
  have hrlast : r.getLastD ' ' = line.getLastD ' ' := by
    rw [h1, List.getLastD_cons]
  have hps : pyStrip r = r.dropWhile Char.isWhitespace :=
    pyStrip_dropped r (by rw [hrlast]; exact hl) hrne
  have hAne : r.dropWhile Char.isWhitespace ≠ [] := by
    intro hc
    have hall := List.dropWhile_eq_nil_iff.mp hc
    have hmem := mem_of_getLastD r ' ' hrne
    have h2 := hall _ hmem
    rw [hrlast] at h2
    rw [h2] at hl
    cases hl
  have hvlast : (pyStrip r).getLastD ' ' = line.getLastD ' ' := by
    rw [hps, dropWhile_getLastD Char.isWhitespace r ' ' hAne, hrlast]
  have hgoodv : GoodVal (pyStrip r) := by
    refine ⟨by rw [hps]; exact hAne, ?_, ?_⟩
    · rw [hps]
      exact dropWhile_headD_false Char.isWhitespace r ' ' hAne
    · rw [hvlast]
      exact hl
  refine ⟨k, r, ?_, hgoodk, hkhead, hgoodv, hvlast⟩
  unfold splitFirstSpace
  rw [if_pos hsp, ← hk, ← hD, hr]
  rfl

/-! ## Ordered-map lemmas -/

theorem odSet_names {κ α : Type} [DecidableEq κ] (m : List (κ × α)) (k : κ) (v : α) :
    (odSet m k v).map Prod.fst =
      if k ∈ m.map Prod.fst then m.map Prod.fst else m.map Prod.fst ++ [k] := by
  induction m with
  | nil => simp [odSet]
  | cons p rest ih =>
    rcases p with ⟨k1, v1⟩
    by_cases hk : k1 = k
    · subst hk
      simp [odSet]
    · simp only [odSet, if_neg hk, List.map_cons, ih]
      by_cases hmem : k ∈ rest.map Prod.fst
      · rw [if_pos hmem, if_pos (by simp [hmem])]
    
      · rw [if_neg hmem, if_neg (by
          simp only [List.mem_cons]
          push_neg
          exact ⟨fun hc => hk hc.symm, hmem⟩)]
        simp

theorem odSet_names_nodup {κ α : Type} [DecidableEq κ] (m : List (κ × α)) (k : κ) (v : α)
    (h : (m.map Prod.fst).Nodup) : ((odSet m k v).map Prod.fst).Nodup := by
  rw [odSet_names]
  by_cases hmem : k ∈ m.map Prod.fst
  · rw [if_pos hmem]
    exact h
  · rw [if_neg hmem, ← List.concat_eq_append]
    exact List.Nodup.concat hmem h

theorem odSet_mem {κ α : Type} [DecidableEq κ] (m : List (κ × α)) (k : κ) (v : α)
    (e : κ × α) (h : e ∈ odSet m k v) : e ∈ m ∨ e = (k, v) := by
  induction m with
  | nil =>
    simp [odSet] at h
    exact Or.inr h
  | cons p rest ih =>
    rcases p with ⟨k1, v1⟩
    by_cases hk : k1 = k
    · subst hk
      simp only [odSet, if_pos rfl] at h
      rcases List.mem_cons.mp h with rfl | hrest
      · exact Or.inr rfl
      · exact Or.inl (List.mem_cons.mpr (Or.inr hrest))
    · simp only [odSet, if_neg hk] at h
      rcases List.mem_cons.mp h with rfl | hrest
      · exact Or.inl (List.mem_cons.mpr (Or.inl rfl))
      · rcases ih hrest with hm | he
        · exact Or.inl (List.mem_cons.mpr (Or.inr hm))
        · exact Or.inr he

theorem odSet_odSet_same {κ α : Type} [DecidableEq κ] (m : List (κ × α)) (k : κ)
    (v1 v2 : α) : odSet (odSet m k v1) k v2 = odSet m k v2 := by
  induction m with
  | nil => simp [odSet]
  | cons p rest ih =>
    rcases p with ⟨k1, v1x⟩
    by_cases hk : k1 = k
    · subst hk
      simp [odSet]
    · simp [odSet, hk, ih]

theorem odSet_append_of_not_mem {κ α : Type} [DecidableEq κ] (m : List (κ × α)) (k : κ)
    (v : α) (h : k ∉ m.map Prod.fst) : odSet m k v = m ++ [(k, v)] := by
  induction m with
  | nil => rfl
  | cons p rest ih =>
    rcases p with ⟨k1, v1⟩
    have hk : k1 ≠ k := by
      intro hc
      exact h (by simp [hc])
    simp only [odSet, if_neg hk, List.cons_append]
    rw [ih (by intro hc; exact h (by simp [hc]))]

theorem odLookup_mem {κ α : Type} [DecidableEq κ] (m : List (κ × α)) (k : κ) (v : α)
    (h : odLookup m k = some v) : (k, v) ∈ m := by
  induction m with
  | nil => cases h
  | cons p rest ih =>
    rcases p with ⟨k1, v1⟩
    by_cases hk : k1 = k
    · subst hk
      simp only [odLookup, if_pos rfl] at h
      have := Option.some.inj h
      subst this
      simp
    · simp only [odLookup, if_neg hk] at h
      exact List.mem_cons.mpr (Or.inr (ih h))

/-! ## Bracket stripping -/

theorem rstrip_headD (p : Char → Bool) (L : List Char) (d : Char)
    (h : (L.reverse.dropWhile p).reverse ≠ []) :
    ((L.reverse.dropWhile p).reverse).headD d = L.headD d := by
  rcases dropWhile_suffix_exists p L.reverse with ⟨s, hs⟩
  have hL : L = (L.reverse.dropWhile p).reverse ++ s.reverse := by
    have h2 := congrArg List.reverse hs
    rw [List.reverse_reverse, List.reverse_append] at h2
    exact h2
  conv_rhs => rw [hL]
  rw [headD_append_left _ _ _ h]

theorem rstrip_getLastD_false (p : Char → Bool) (L : List Char) (d : Char)
    (h : (L.reverse.dropWhile p).reverse ≠ []) :
    p (((L.reverse.dropWhile p).reverse).getLastD d) = false := by
  rw [getLastD_reverse]
  exact dropWhile_headD_false p L.reverse d (by simpa using h)

theorem extracted_goodsec (line : List Char) :
    GoodSec (((line.dropWhile (fun c => c == '[')).reverse.dropWhile
      (fun c => c == ']')).reverse) := by
  by_cases hne : ((line.dropWhile (fun c => c == '[')).reverse.dropWhile
      (fun c => c == ']')).reverse = []
  · rw [hne]
    exact ⟨by decide, by decide⟩
  · have hLne : line.dropWhile (fun c => c == '[') ≠ [] := by
      intro hc
      rw [hc] at hne
      exact hne rfl
    constructor
    · rw [rstrip_headD _ _ _ hne]
      have h := dropWhile_headD_false (fun c => c == '[') line 'x' hLne
      simpa using h
    · have h := rstrip_getLastD_false (fun c => c == ']')
        (line.dropWhile (fun c => c == '[')) 'x' hne
      simpa using h

theorem extract_written_header (sec : List Char) (hgs : GoodSec sec) :
    ((('[' :: (sec ++ [']'])).dropWhile (fun c => c == '[')).reverse.dropWhile
      (fun c => c == ']')).reverse = sec := by
  have h1 : ('[' :: (sec ++ [']'])).dropWhile (fun c => c == '[') = sec ++ [']'] := by
    rw [List.dropWhile_cons, if_pos (by simp)]
    apply dropWhile_eq_self_of_headD _ _ ']' (by simp)
    cases hsc : sec with
    | nil => decide
    | cons a t =>
      have ha : a ≠ '[' := by
        have := hgs.1
        rw [hsc] at this
        simpa using this
      simp [List.headD, ha]
  rw [h1]
  have h2 : (sec ++ [']']).reverse = ']' :: sec.reverse := by simp
  rw [h2, List.dropWhile_cons, if_pos (by simp)]
  by_cases hsne : sec = []
  · rw [hsne]
    rfl
  · rw [dropWhile_eq_self_of_headD _ _ ']' (by simpa using hsne) ?_]
    · exact List.reverse_reverse sec
    · rw [headD_reverse, getLastD_irrel sec ']' 'x' hsne]
      simpa using hgs.2

theorem takeWhile_append_space (k z : List Char) (h : ' ' ∉ k) :
    (k ++ ' ' :: z).takeWhile (fun c => c != ' ') = k := by
  induction k with
  | nil => simp [List.takeWhile_cons]
  | cons a t ih =>
    have ha : a ≠ ' ' := by
      intro hc
      exact h (by simp [hc])
    rw [List.cons_append, List.takeWhile_cons, if_pos (by simpa using ha),
      ih (fun hc => h (List.mem_cons.mpr (Or.inr hc)))]

theorem dropWhile_append_space (k z : List Char) (h : ' ' ∉ k) :
    (k ++ ' ' :: z).dropWhile (fun c => c != ' ') = ' ' :: z := by
  induction k with
  | nil => simp [List.dropWhile_cons]
  | cons a t ih =>
    have ha : a ≠ ' ' := by
      intro hc
      exact h (by simp [hc])
    rw [List.cons_append, List.dropWhile_cons, if_pos (by simpa using ha),
      ih (fun hc => h (List.mem_cons.mpr (Or.inr hc)))]

theorem dropWhile_ws_replicate (j : ℕ) (v : List Char) :
    (List.replicate j ' ' ++ v).dropWhile Char.isWhitespace =
      v.dropWhile Char.isWhitespace := by
  induction j with
  | zero => rfl
  | succ n ih =>
    rw [List.replicate_succ, List.cons_append, List.dropWhile_cons, if_pos (by decide)]
    exact ih

theorem head?_eq_headD_char (l : List Char) (h : l ≠ []) : l.head? = some (l.headD ' ') := by
  cases l with
  | nil => exact absurd rfl h
  | cons a t => rfl

theorem getLast?_eq_getLastD_char (l : List Char) (h : l ≠ []) :
    l.getLast? = some (l.getLastD ' ') := by
  rw [List.getLastD_eq_getLast?, List.getLast?_eq_getLast l h]
  rfl

theorem step_blank (st : ConfigDoc × Option (List Char)) : read_config_step st [] = some st := by
  rfl

theorem step_header (st : ConfigDoc × Option (List Char)) (sec : List Char)
    (hgs : GoodSec sec) :
    read_config_step st ('[' :: (sec ++ [']'])) = some (odSet st.1 sec [], some sec) := by
  unfold read_config_step
  have hps : pyStrip ('[' :: (sec ++ [']'])) = '[' :: (sec ++ [']']) := by
    refine pyStrip_eq_self ('[' :: (sec ++ [']'])) (by simp) ?_ ?_
    · have hh : ('[' :: (sec ++ [']'])).headD ' ' = '[' := rfl
      rw [hh]
      decide
    · have hlast : (('[' :: (sec ++ [']'])).getLastD ' ') = ']' := by
        rw [List.getLastD_cons, getLastD_append_right _ _ _ (by simp)]
        rfl
      rw [hlast]
      decide
  rw [hps]
  have hcond : ('[' :: (sec ++ [']'])).head? = some '[' ∧
      ('[' :: (sec ++ [']'])).getLast? = some ']' := by
    refine ⟨rfl, ?_⟩
    have : ('[' :: (sec ++ [']'])) = ['['] ++ (sec ++ [']']) := rfl
    rw [this, List.getLast?_append_of_ne_nil _ (by simp),
      List.getLast?_append_of_ne_nil _ (by simp)]
    rfl
  rw [if_pos hcond]
  unfold secExtract
  rw [extract_written_header sec hgs]

theorem step_kv_pad (d : ConfigDoc) (sec k v : List Char)
    (cur : List (List Char × List Char)) (hp : GoodPair k v)
    (j : ℕ) (hj : 1 ≤ j) (hcur : odLookup d sec = some cur) :
    read_config_step (d, some sec) (k ++ List.replicate j ' ' ++ v) =
      some (odSet d sec (odSet cur k v), some sec) := by
  obtain ⟨⟨hkne, hknosp, hkhead⟩, ⟨hvne, hvhead, hvlast⟩, hnb⟩ := hp
  have hm1 : 1 ≤ j := hj
  have hrep : List.replicate (j) ' ' =
      ' ' :: List.replicate (j - 1) ' ' := by
    cases hm : j with
    | zero => omega
    | succ n =>
      rw [List.replicate_succ]
      rfl
  have hwform : k ++ List.replicate (j) ' ' ++ v =
      k ++ (' ' :: (List.replicate (j - 1) ' ' ++ v)) := by
    rw [List.append_assoc, hrep]
    rfl
  set z := List.replicate (j - 1) ' ' ++ v with hz
  have hwne : k ++ (' ' :: z) ≠ [] := by
    simp [hkne]
  have hwhead : (k ++ (' ' :: z)).headD ' ' = k.headD ' ' :=
    headD_append_left _ _ _ hkne
  have hwlast : (k ++ (' ' :: z)).getLastD ' ' = v.getLastD ' ' := by
    rw [getLastD_append_right _ _ _ (by simp)]
    rw [List.getLastD_cons, hz, getLastD_append_right _ _ _ hvne]
  rw [hwform]
  unfold read_config_step
  have hps : pyStrip (k ++ (' ' :: z)) = k ++ (' ' :: z) := by
    apply pyStrip_eq_self _ hwne
    · rw [hwhead]
      exact hkhead
    · rw [hwlast]
      exact hvlast
  rw [hps]
  have hcond : ¬((k ++ (' ' :: z)).head? = some '[' ∧
      (k ++ (' ' :: z)).getLast? = some ']') := by
    intro hc
    apply hnb
    constructor
    · have hh := hc.1
      rw [head?_eq_headD_char _ hwne, hwhead] at hh
      exact Option.some.inj hh
    · have hl := hc.2
      rw [getLast?_eq_getLastD_char _ hwne, hwlast] at hl
      exact Option.some.inj hl
  rw [if_neg hcond, if_neg hwne]
  have hsplit : splitFirstSpace (k ++ (' ' :: z)) = some (k, z) := by
    unfold splitFirstSpace
    rw [if_pos (by simp), takeWhile_append_space _ _ hknosp,
      dropWhile_append_space _ _ hknosp]
    rfl
  rw [hsplit, Option.some_bind, Option.some_bind, hcur, Option.some_bind]
  have hpz : pyStrip z = v := by
    have hzlast : z.getLastD ' ' = v.getLastD ' ' := by
      rw [hz, getLastD_append_right _ _ _ hvne]
    have hzne : z ≠ [] := by
      rw [hz]
      simp [hvne]
    rw [pyStrip_dropped z (by rw [hzlast]; exact hvlast) hzne, hz,
      dropWhile_ws_replicate, dropWhile_eq_self_of_headD _ _ ' ' hvne hvhead]
  rw [hpz]

theorem step_wf (st : ConfigDoc × Option (List Char)) (raw : List Char)
    (st2 : ConfigDoc × Option (List Char)) (h : read_config_step st raw = some st2)
    (hwf : WFDoc st.1) : WFDoc st2.1 := by
  unfold read_config_step at h
  by_cases hc : (pyStrip raw).head? = some '[' ∧ (pyStrip raw).getLast? = some ']'
  · rw [if_pos hc] at h
    have hst2 := Option.some.inj h
    rw [← hst2]
    constructor
    · exact odSet_names_nodup _ _ _ hwf.1
    · intro e he
      rcases odSet_mem _ _ _ _ he with hmem | heq
      · exact hwf.2 e hmem
      · rw [heq]
        exact ⟨extracted_goodsec _, by simp, by simp⟩
  · rw [if_neg hc] at h
    by_cases hb : pyStrip raw = []
    · rw [if_pos hb] at h
      have hst2 := Option.some.inj h
      rw [← hst2]
      exact hwf
    · rw [if_neg hb] at h
      cases hsec : st.2 with
      | none =>
        rw [hsec, Option.none_bind] at h
        cases h
      | some sec =>
        rw [hsec, Option.some_bind] at h
        cases hkv : splitFirstSpace (pyStrip raw) with
        | none =>
          rw [hkv, Option.none_bind] at h
          cases h
        | some kv =>
          rw [hkv, Option.some_bind] at h
          cases hcur : odLookup st.1 sec with
          | none =>
            rw [hcur, Option.none_bind] at h
            cases h
          | some cur =>
            rw [hcur, Option.some_bind] at h
            have hst2 := Option.some.inj h
            have hpp := pyStrip_props raw hb
            have hsp : ' ' ∈ pyStrip raw := by
              by_contra hnsp
              unfold splitFirstSpace at hkv
              rw [if_neg hnsp] at hkv
              cases hkv
            obtain ⟨k2, r2, heq, hgk, hkh, hgv, hvl⟩ :=
              splitFirstSpace_props (pyStrip raw) hpp.1 hpp.2 hsp
            rw [heq] at hkv
            have hkv2 := Option.some.inj hkv
            rw [← hkv2] at hst2
            have hnb : ¬(k2.headD ' ' = '[' ∧ (pyStrip r2).getLastD ' ' = ']') := by
              intro hcontra
              apply hc
              constructor
              · rw [head?_eq_headD_char _ hb, ← hkh, hcontra.1]
              · rw [getLast?_eq_getLastD_char _ hb, ← hvl, hcontra.2]
            rw [← hst2]
            constructor
            · exact odSet_names_nodup _ _ _ hwf.1
            · intro e he
              rcases odSet_mem _ _ _ _ he with hmem | heqe
              · exact hwf.2 e hmem
              · have hcur_mem := odLookup_mem _ _ _ hcur
                have hcurwf := hwf.2 (sec, cur) hcur_mem
                rw [heqe]
                refine ⟨hcurwf.1, odSet_names_nodup _ _ _ hcurwf.2.1, ?_⟩
                intro kvp hkvp
                rcases odSet_mem _ _ _ _ hkvp with hm2 | heq2
                · exact hcurwf.2.2 kvp hm2
                · rw [heq2]
                  exact ⟨hgk, hgv, hnb⟩

theorem foldl_wf (ls : List (List Char)) : ∀ st d c, WFDoc st.1 →
    ls.foldlM read_config_step st = some (d, c) → WFDoc d := by
  induction ls with
  | nil =>
    intro st d c hwf h
    have h2 := Option.some.inj h
    rw [h2] at hwf
    exact hwf
  | cons a t ih =>
    intro st d c hwf h
    rw [List.foldlM_cons] at h
    cases hst2 : read_config_step st a with
    | none =>
      rw [hst2] at h
      cases h
    | some st2 =>
      rw [hst2] at h
      exact ih st2 d c (step_wf _ _ _ hst2 hwf) h

theorem read_wf (ls : List (List Char)) (d : ConfigDoc) (c : Option (List Char))
    (h : read_config_aux ls = some (d, c)) : WFDoc d :=
  foldl_wf ls ([], none) d c ⟨by simp, by simp⟩ h

theorem run_kv_lines (pad : List Char × List Char → ℕ)
    (kvs : List (List Char × List Char)) :
    ∀ (d : ConfigDoc) (sec : List Char) (acc : List (List Char × List Char)),
    (∀ kv ∈ kvs, GoodPair kv.1 kv.2 ∧ 1 ≤ pad kv) →
    (((acc ++ kvs).map Prod.fst).Nodup) →
    (kvs.map (fun kv => kv.1 ++ List.replicate (pad kv) ' ' ++ kv.2)).foldlM
      read_config_step (odSet d sec acc, some sec) =
      some (odSet d sec (acc ++ kvs), some sec) := by
  induction kvs with
  | nil =>
    intro d sec acc _ _
    simp
  | cons kv rest ih =>
    intro d sec acc hgood hnodup
    simp only [List.map_cons, List.foldlM_cons]
    have hcur : odLookup (odSet d sec acc) sec = some acc := odLookup_odSet_self _ _ _
    have hstep := step_kv_pad (odSet d sec acc) sec kv.1 kv.2 acc (hgood kv (by simp)).1
      (pad kv) (hgood kv (by simp)).2 hcur
    rw [hstep]
    have hknotmem : kv.1 ∉ acc.map Prod.fst := by
      intro hc
      rw [List.map_append] at hnodup
      rcases List.nodup_append.mp hnodup with ⟨_, _, hdisj⟩
      exact hdisj hc (by simp)
    have hX : odSet (odSet d sec acc) sec (odSet acc kv.1 kv.2) =
        odSet d sec (acc ++ [kv]) := by
      rw [odSet_odSet_same, odSet_append_of_not_mem acc kv.1 kv.2 hknotmem]
    have hres := ih d sec (acc ++ [kv])
      (fun p hp => hgood p (by simp [hp]))
      (by rw [List.append_assoc]; simpa using hnodup)
    rw [List.append_assoc] at hres
    simp only [List.singleton_append] at hres
    rw [← hX] at hres
    exact hres

theorem run_block (d : ConfigDoc) (c : Option (List Char)) (sec : List Char)
    (kvs : List (List Char × List Char)) (rest : List (List Char))
    (hgs : GoodSec sec)
    (hgood : ∀ kv ∈ kvs, GoodPair kv.1 kv.2 ∧ kv.1.length < 25)
    (hnodup : (kvs.map Prod.fst).Nodup) :
    ((('[' :: (sec ++ [']'])) :: ([] : List Char) ::
      (kvs.map (fun kv => kv.1 ++ List.replicate (25 - kv.1.length) ' ' ++ kv.2) ++
        [([] : List Char)])) ++ rest).foldlM read_config_step (d, c) =
      rest.foldlM read_config_step (odSet d sec kvs, some sec) := by
  rw [List.cons_append, List.foldlM_cons, step_header (d, c) sec hgs,
    Option.bind_eq_bind', Option.some_bind]
  rw [List.cons_append, List.foldlM_cons, step_blank, Option.bind_eq_bind',
    Option.some_bind]
  rw [List.append_assoc, List.foldlM_append]
  have hkv := run_kv_lines (fun kv => 25 - kv.1.length) kvs d sec []
    (fun kv hkv => ⟨(hgood kv hkv).1, by
      have h := (hgood kv hkv).2
      show 1 ≤ 25 - kv.1.length
      omega⟩)
    (by simpa using hnodup)
  simp only [List.nil_append] at hkv
  rw [hkv, Option.bind_eq_bind', Option.some_bind, List.singleton_append,
    List.foldlM_cons, step_blank, Option.bind_eq_bind', Option.some_bind]

theorem run_blocks (doc : ConfigDoc) :
    ∀ (dacc : ConfigDoc) (c : Option (List Char)),
    (∀ e ∈ doc, GoodSec e.1 ∧ (e.2.map Prod.fst).Nodup ∧
      ∀ kv ∈ e.2, GoodPair kv.1 kv.2 ∧ kv.1.length < 25) →
    (((dacc ++ doc).map Prod.fst).Nodup) →
    ∃ c2, (write_config doc).foldlM read_config_step (dacc, c) =
      some (dacc ++ doc, c2) := by
  induction doc with
  | nil =>
    intro dacc c _ _
    exact ⟨c, by simp [write_config]⟩
  | cons e rest ih =>
    intro dacc c hgood hnodup
    have hwc : write_config (e :: rest) = ((('[' :: (e.1 ++ [']'])) :: ([] : List Char) ::
        (e.2.map (fun kv => kv.1 ++ List.replicate (25 - kv.1.length) ' ' ++ kv.2) ++
          [([] : List Char)])) ++ write_config rest) := by
      simp [write_config]
    rw [hwc, run_block dacc c e.1 e.2 (write_config rest) (hgood e (by simp)).1
      (fun kv hkv => (hgood e (by simp)).2.2 kv hkv) (hgood e (by simp)).2.1]
    have hnotmem : e.1 ∉ dacc.map Prod.fst := by
      intro hc
      rw [List.map_append] at hnodup
      rcases List.nodup_append.mp hnodup with ⟨_, _, hdisj⟩
      exact hdisj hc (by simp)
    have hset : odSet dacc e.1 e.2 = dacc ++ [e] := by
      rw [odSet_append_of_not_mem dacc e.1 e.2 hnotmem]
    rw [hset]
    obtain ⟨c2, hc2⟩ := ih (dacc ++ [e]) (some e.1)
      (fun p hp => hgood p (by simp [hp]))
      (by rw [List.append_assoc]; simpa using hnodup)
    rw [List.append_assoc] at hc2
    simp only [List.singleton_append] at hc2
    exact ⟨c2, hc2⟩

/-- C5 amended: a config document obtained by reading a file, with only
non-empty sections, no malformed lines, and every key shorter than 25
characters, writes and re-reads to an identical document (same sections
in the same order, same keys in order, same values).  The key-length
restriction is forced: a key of 25 or more characters is written with
no separating space before its value. -/
theorem c5_config_roundtrip (ls : List (List Char)) (d : ConfigDoc)
    (h : read_config ls = some d)
    (hne : ∀ e ∈ d, e.2 ≠ [])
    (hkey : ∀ e ∈ d, ∀ kv ∈ e.2, kv.1.length < 25) :
    read_config (write_config d) = some d := by
  unfold read_config at h
  cases haux : read_config_aux ls with
  | none =>
    rw [haux] at h
    cases h
  | some st =>
    rw [haux] at h
    have hd : st.1 = d := by simpa using h
    have hst : read_config_aux ls = some (st.1, st.2) := by
      rw [haux]
    have hwf := read_wf ls st.1 st.2 hst
    rw [hd] at hwf
    obtain ⟨c2, hrun⟩ := run_blocks d [] none
      (fun e he => ⟨(hwf.2 e he).1, (hwf.2 e he).2.1,
        fun kv hkv => ⟨(hwf.2 e he).2.2 kv hkv, hkey e he kv hkv⟩⟩)
      (by simpa using hwf.1)
    unfold read_config read_config_aux
    rw [hrun]
    simp

theorem read_aux_snoc (ls : List (List Char)) (st : ConfigDoc × Option (List Char))
    (h : read_config_aux ls = some st) (raw : List Char) :
    read_config_aux (ls ++ [raw]) = read_config_step st raw := by
  unfold read_config_aux at h ⊢
  rw [List.foldlM_append, h, Option.bind_eq_bind', Option.some_bind, List.foldlM_cons]
  cases hs : read_config_step st raw with
  | none => rfl
  | some st2 =>
    rw [Option.bind_eq_bind', Option.some_bind]
    rfl

/-- C6 amended: on a file with an active section, a further raw line is
handled as follows.  A blank line (after stripping) changes nothing.  A
line that (after stripping) starts with an open bracket and ends with a
close bracket activates the section named by stripping leading open and
trailing close brackets, with a fresh empty map.  Any other non-blank
line is split at the first space character (not at the first whitespace
run): the key is the text before the first space, the value is the
remainder stripped of surrounding whitespace, and the pair is stored in
the active section, overwriting any prior value for that key and
leaving other keys unchanged.  A non-blank non-header line with no
space character at all is an error. -/
theorem c6_config_line_cases (ls : List (List Char)) (doc : ConfigDoc) (sec : List Char)
    (h : read_config_aux ls = some (doc, some sec)) (raw : List Char) :
    (pyStrip raw = [] → read_config_aux (ls ++ [raw]) = some (doc, some sec)) ∧
    ((pyStrip raw).head? = some '[' ∧ (pyStrip raw).getLast? = some ']' →
      read_config_aux (ls ++ [raw]) =
        some (odSet doc (secExtract (pyStrip raw)) [], some (secExtract (pyStrip raw)))) ∧
    (∀ k r cur, ¬((pyStrip raw).head? = some '[' ∧ (pyStrip raw).getLast? = some ']') →
      pyStrip raw ≠ [] →
      splitFirstSpace (pyStrip raw) = some (k, r) →
      odLookup doc sec = some cur →
      read_config_aux (ls ++ [raw]) =
        some (odSet doc sec (odSet cur k (pyStrip r)), some sec) ∧
      k = (pyStrip raw).takeWhile (fun c => c != ' ') ∧
      odLookup (odSet cur k (pyStrip r)) k = some (pyStrip r) ∧
      (∀ k2, k2 ≠ k → odLookup (odSet cur k (pyStrip r)) k2 = odLookup cur k2)) ∧
    (¬((pyStrip raw).head? = some '[' ∧ (pyStrip raw).getLast? = some ']') →
      pyStrip raw ≠ [] →
      splitFirstSpace (pyStrip raw) = none →
      read_config_aux (ls ++ [raw]) = none) := by
  have hsnoc := read_aux_snoc ls (doc, some sec) h raw
  refine ⟨?_, ?_, ?_, ?_⟩
  · intro hblank
    rw [hsnoc]
    unfold read_config_step
    rw [hblank]
    rw [if_neg (by simp), if_pos rfl]
  · intro hhdr
    rw [hsnoc]
    unfold read_config_step
    rw [if_pos hhdr]
  · intro k r cur hnh hnb hsplit hcur
    have hkey : k = (pyStrip raw).takeWhile (fun c => c != ' ') := by
      unfold splitFirstSpace at hsplit
      by_cases hsp : ' ' ∈ pyStrip raw
      · rw [if_pos hsp] at hsplit
        have h2 := congrArg Prod.fst (Option.some.inj hsplit)
        exact h2.symm
      · rw [if_neg hsp] at hsplit
        cases hsplit
    refine ⟨?_, hkey, odLookup_odSet_self _ _ _,
      fun k2 hk2 => odLookup_odSet_ne _ _ _ _ (fun hc => hk2 hc.symm)⟩
    rw [hsnoc]
    unfold read_config_step
    rw [if_neg hnh, if_neg hnb, Option.some_bind, hsplit, Option.some_bind, hcur,
      Option.some_bind]
  · intro hnh hnb hsplit
    rw [hsnoc]
    unfold read_config_step
    rw [if_neg hnh, if_neg hnb, Option.some_bind, hsplit, Option.none_bind]

/-- C6 counterexample: key-value lines are not split on the first
whitespace run.  On the line with a tab between a and b, the stored key
is the tab-containing text before the first space (not the text before
the tab), and the same line without any space is an error rather than a
tab-split pair. -/
theorem c6_counterexample_tab :
    read_config [("[s]").data, ("a\tb c").data] =
      some [(("s").data, [(("a\tb").data, ("c").data)])] ∧
    ("a\tb").data ≠ ("a\tb c").data.takeWhile (fun c => !c.isWhitespace) ∧
    read_config [("[s]").data, ("a\tb").data] = none := by
  refine ⟨by decide, by decide, by decide⟩

/-- C6 witness: the amended line-handling statement at a concrete file
with one declared section and the key-value line (a 1). -/
theorem c6_witness :
    read_config_aux [("[s]").data] = some ([(("s").data, [])], some ("s").data) ∧
    read_config_aux [("[s]").data, ("a 1").data] =
      some ([(("s").data, [(("a").data, ("1").data)])], some ("s").data) := by
  refine ⟨by decide, ?_⟩
  have hc := (c6_config_line_cases [("[s]").data] [(("s").data, [])] ("s").data (by decide)
    (("a 1").data)).2.2.1 ("a").data ("1").data [] (by decide) (by decide) (by decide)
    (by decide)
  have h2 := hc.1
  rw [show ([("[s]").data] ++ [("a 1").data]) = [("[s]").data, ("a 1").data] from rfl] at h2
  rw [h2]
  decide

/-- C10: when a section name is declared a second time, the document
keeps the section at the iteration-order position of its first
occurrence (the name list is unchanged), its previously stored pairs
are discarded, other sections are untouched, and after a following run
of key-value lines the section holds exactly the pairs read after the
second header. -/
theorem c10_duplicate_section (ls : List (List Char)) (doc : ConfigDoc)
    (c : Option (List Char)) (sec : List Char) (cur : List (List Char × List Char))
    (h : read_config_aux ls = some (doc, c))
    (hlk : odLookup doc sec = some cur)
    (kvs : List (List Char × List Char))
    (hgood : ∀ kv ∈ kvs, GoodPair kv.1 kv.2 ∧ kv.1.length < 25)
    (hnodup : (kvs.map Prod.fst).Nodup) :
    read_config_aux (ls ++ ('[' :: (sec ++ [']'])) ::
        kvs.map (fun kv => kv.1 ++ List.replicate (25 - kv.1.length) ' ' ++ kv.2)) =
      some (odSet doc sec kvs, some sec) ∧
    (odSet doc sec kvs).map Prod.fst = doc.map Prod.fst ∧
    odLookup (odSet doc sec kvs) sec = some kvs ∧
    (∀ sec2, sec2 ≠ sec → odLookup (odSet doc sec kvs) sec2 = odLookup doc sec2) := by
  have hwf := read_wf ls doc c h
  have hgs : GoodSec sec := (hwf.2 (sec, cur) (odLookup_mem _ _ _ hlk)).1
  have hmemsec : sec ∈ doc.map Prod.fst := by
    have := odLookup_mem _ _ _ hlk
    exact List.mem_map.mpr ⟨(sec, cur), this, rfl⟩
  refine ⟨?_, ?_, odLookup_odSet_self _ _ _,
    fun sec2 hs2 => odLookup_odSet_ne _ _ _ _ (fun hc => hs2 hc.symm)⟩
  · unfold read_config_aux at h ⊢
    rw [List.foldlM_append, h, Option.bind_eq_bind', Option.some_bind, List.foldlM_cons,
      step_header (doc, c) sec hgs, Option.bind_eq_bind', Option.some_bind]
    have hrun := run_kv_lines (fun kv => 25 - kv.1.length) kvs doc sec []
      (fun kv hkv => ⟨(hgood kv hkv).1, by
        have h2 := (hgood kv hkv).2
        show 1 ≤ 25 - kv.1.length
        omega⟩)
      (by simpa using hnodup)
    simpa using hrun
  · rw [odSet_names, if_pos hmemsec]

/-- C10 witness: the duplicate-section statement at a concrete file that
declares section s with pair (x, 1) and then re-declares s followed by
the single pair (b, 2). -/
theorem c10_witness :
    odLookup [(("s").data, [(("x").data, ("1").data)])] ("s").data =
      some [(("x").data, ("1").data)] ∧
    read_config_aux ([("[s]").data, ("x 1").data] ++ ('[' :: (("s").data ++ [']'])) ::
        ([(("b").data, ("2").data)].map
          (fun kv => kv.1 ++ List.replicate (25 - kv.1.length) ' ' ++ kv.2))) =
      some (odSet [(("s").data, [(("x").data, ("1").data)])] ("s").data
        [(("b").data, ("2").data)], some ("s").data) ∧
    (odSet [(("s").data, [(("x").data, ("1").data)])] ("s").data
        [(("b").data, ("2").data)]).map Prod.fst =
      [(("s").data, [(("x").data, ("1").data)])].map Prod.fst := by
  have hc := c10_duplicate_section [("[s]").data, ("x 1").data]
    [(("s").data, [(("x").data, ("1").data)])] (some ("s").data) ("s").data
    [(("x").data, ("1").data)] (by decide) (by decide)
    [(("b").data, ("2").data)] (by decide) (by decide)
  exact ⟨by decide, hc.1, hc.2.1⟩

/-- C5 counterexample: a document read from a file whose single section
holds one pair with a 25-character key and value v satisfies the stated
hypotheses (non-empty section, no malformed line), yet writing it and
reading the result back fails: the key fills the whole 25-character
field, so the written line has no space separating key and value. -/
theorem c5_counterexample_long_key :
    read_config [("[s]").data, ("aaaaaaaaaaaaaaaaaaaaaaaaa v").data] =
      some [(("s").data, [(("aaaaaaaaaaaaaaaaaaaaaaaaa").data, ("v").data)])] ∧
    read_config (write_config
        [(("s").data, [(("aaaaaaaaaaaaaaaaaaaaaaaaa").data, ("v").data)])]) = none := by
  refine ⟨by decide, by decide⟩

/-- C5 witness: the round-trip statement at the concrete two-line file
declaring section s with the pair (a, 1). -/
theorem c5_witness :
    read_config [("[s]").data, ("a 1").data] =
      some [(("s").data, [(("a").data, ("1").data)])] ∧
    (∀ e ∈ [(("s").data, [(("a").data, ("1").data)])], e.2 ≠ []) ∧
    read_config (write_config [(("s").data, [(("a").data, ("1").data)])]) =
      some [(("s").data, [(("a").data, ("1").data)])] := by
  refine ⟨by decide, by decide, ?_⟩
  exact c5_config_roundtrip [("[s]").data, ("a 1").data]
    [(("s").data, [(("a").data, ("1").data)])] (by decide) (by decide) (by decide)
